import Mathlib

set_option maxHeartbeats 1000000

/- Shallow embedding of the textbus merged-cell table engine:
   `src/src/lib/components/table.component.ts` (grid store, matrix
   projector `serialize`, rectangle normalizer `selectCellsByRange`,
   `selectCells`, `findCellPosition`) and the structural edit commander
   `TableEditCommander` (src/unnamed/part_000).

   Modelling conventions:
   * Cells live in an arena `cellArena`; a cell's arena index plays the role
     of the JS object identity and of its opaque content handle (the
     `fragment` created by `createCell`).  A fresh cell is appended to the
     arena, so fresh content handles always get new indices.
   * Row arrays live in an arena `rowArena` (each entry an ordered list of
     cell indices); `bodies` is the ordered list of row-arena indices that
     form the grid store (`config.bodies`).  Arena indices model JS array
     identity (`cell.row`, `bodies.indexOf(row)`, `bodies.includes(row)`),
     including rows detached from `bodies` and the fresh empty rows the
     sweep in `serialize` synthesizes.
   * JS array primitives (`splice` with negative / clamped indices,
     `indexOf` returning -1, `slice`, `unshift`, `push`) are modelled by
     the `js*` helpers below with exact JS index normalization.
   * JS numbers that can be `null` (`rowIndex`, `columnIndex` before the
     sweep assigns them) are `Option Int`; at use sites where JS coerces
     `null` to `0` (array `slice` / `splice` arguments, `++`/`--`) we use
     `Option.getD 0`.  Spans are `Nat`; the only subtractions the code
     performs on them happen when the quantity is positive in every state
     reachable from a well-formed grid, so truncated subtraction agrees
     with JS there (our theorems carry the corresponding hypotheses).
   * A JS crash (property access on `undefined`, `Array.prototype.reduce`
     of an empty array without a seed, `Math.max()` of an empty spread
     poisoning all later indexing) is modelled by `Option.none`.
   * The `do {} while` sweep of `serialize` and the recursion of
     `selectCellsByRange` are modelled with explicit fuel that is ample for
     every terminating JS execution (the sweep visits at most
     `rowspan * colspan` coordinates per cell; the normalizer's rectangle
     only grows inside the matrix bounds). -/

structure TableCell where
  rowspan : Nat
  colspan : Nat
deriving DecidableEq, Repr

def getIdx (l : List α) (i : Int) : Option α :=
  if i < 0 then none else l[i.toNat]?

/- JS index normalization for `Array.prototype.splice` / `slice`:
   a negative index counts from the end (clamped at 0), a positive one is
   clamped at the length. -/
def jsNorm (len : Nat) (i : Int) : Nat :=
  if i < 0 then ((len : Int) + i).toNat else min i.toNat len

def jsInsertAt (l : List α) (i : Int) (a : α) : List α :=
  l.take (jsNorm l.length i) ++ a :: l.drop (jsNorm l.length i)

def jsRemoveAt (l : List α) (i : Int) : List α :=
  l.take (jsNorm l.length i) ++ l.drop (jsNorm l.length i + 1)

/- `splice(i, 1, a)` -/
def jsReplaceAt (l : List α) (i : Int) (a : α) : List α :=
  l.take (jsNorm l.length i) ++ a :: l.drop (jsNorm l.length i + 1)

def jsIndexOf [BEq α] (l : List α) (a : α) : Int :=
  match l.findIdx? (· == a) with
  | some n => (n : Int)
  | none => -1

def jsSlice (l : List α) (a b : Int) : List α :=
  (l.drop (jsNorm l.length a)).take (jsNorm l.length b - jsNorm l.length a)

/- `Array.from(new Set(xs))`: keeps the first occurrence of each element. -/
def dedupFirst [BEq α] (l : List α) : List α :=
  l.foldl (fun acc a => if acc.contains a then acc else acc ++ [a]) []

/- `Math.max(...xs)`; `none` for the empty spread (JS gives `-Infinity`,
   which poisons every later array index into a crash). -/
def maxOfI : List Int → Option Int
  | [] => none
  | a :: l => some ((maxOfI l).elim a (max a))

/- `TableCellPosition` of table.component.ts.  `cell` and
   `beforeCell`/`afterCell` are cell-arena indices, `row` is the row-arena
   index of the grid row array the position belongs to; `rowIndex` and
   `columnIndex` start out as JS `null` (`none`). -/
structure TableCellPosition where
  beforeCell : Option Nat
  afterCell : Option Nat
  row : Nat
  cell : Nat
  rowIndex : Option Int
  columnIndex : Option Int
  offsetColumn : Nat
  offsetRow : Nat
deriving DecidableEq, Repr

/- `TableRowPosition` (the `beforeRow`/`afterRow` fields are never read by
   any of the modelled operations and are omitted). -/
structure TableRowPosition where
  cells : Nat
  cellsPosition : List TableCellPosition
deriving DecidableEq, Repr

structure TableState where
  cellArena : List TableCell
  rowArena : List (List Nat)
  bodies : List Nat
deriving DecidableEq, Repr

def cellOf (cells : List TableCell) (i : Nat) : TableCell :=
  cells.getD i ⟨1, 1⟩

def rowGet (rowArena : List (List Nat)) (i : Nat) : List Nat :=
  rowArena.getD i []

def setRow (rowArena : List (List Nat)) (i : Nat) (l : List Nat) : List (List Nat) :=
  rowArena.set i l

def modCell (s : TableState) (cid : Nat) (f : TableCell → TableCell) : TableState :=
  { s with cellArena := s.cellArena.set cid (f (cellOf s.cellArena cid)) }

/- `createCell` allocates a fresh cell (with a fresh content handle). -/
def allocCell (s : TableState) (c : TableCell) : TableState × Nat :=
  ({ s with cellArena := s.cellArena ++ [c] }, s.cellArena.length)

/- Seeding phase of `serialize`: one matrix row per grid row, carrying the
   row's anchors with zero offsets and `null` indices. -/
def seedRow (rowArena : List (List Nat)) (rid : Nat) : TableRowPosition :=
  let L := rowGet rowArena rid
  { cells := rid
    cellsPosition := (List.range L.length).map fun (idx : Nat) =>
      { beforeCell := getIdx L ((idx : Int) - 1)
        afterCell := getIdx L ((idx : Int) + 1)
        row := rid
        cell := L.getD idx 0
        rowIndex := none
        columnIndex := none
        offsetColumn := 0
        offsetRow := 0 } }

structure SweepState where
  rows : List TableRowPosition
  marks : List (Nat × Nat)
  rowArena : List (List Nat)
deriving Repr

def updRow (rows : List TableRowPosition) (i : Nat)
    (f : TableRowPosition → TableRowPosition) : List TableRowPosition :=
  match rows[i]? with
  | some r => rows.set i (f r)
  | none => rows

/- One visit of the sweep body of `serialize` at `(rowIndex, columnIndex)`:
   assign the position's indices, then insert the colspan projection at the
   next column and/or the rowspan projection into the next row (synthesizing
   a fresh empty trailing row if needed), each guarded by the dedup marks.
   Returns whether a position was present (the JS `stop = true`). -/
def sweepVisit (cells : List TableCell) (st : SweepState) (rowIndex columnIndex : Nat) :
    SweepState × Bool :=
  match (st.rows[rowIndex]?).bind (fun row => row.cellsPosition[columnIndex]?) with
  | none => (st, false)
  | some p0 =>
    let p := { p0 with rowIndex := some (rowIndex : Int),
                       columnIndex := some (columnIndex : Int) }
    let rows1 := updRow st.rows rowIndex fun row =>
      { row with cellsPosition := row.cellsPosition.set columnIndex p }
    let st1 : SweepState :=
      if p.offsetColumn + 1 < (cellOf cells p.cell).colspan ∧
          ¬ st.marks.contains (rowIndex, columnIndex + 1) then
        { rows := updRow rows1 rowIndex fun row =>
            let colProj : TableCellPosition :=
              { beforeCell := p.beforeCell
                afterCell := p.afterCell
                cell := p.cell
                row := row.cells
                rowIndex := some (rowIndex : Int)
                columnIndex := some (columnIndex : Int)
                offsetColumn := p.offsetColumn + 1
                offsetRow := p.offsetRow }
            { row with cellsPosition :=
                jsInsertAt row.cellsPosition ((columnIndex : Int) + 1) colProj }
          marks := st.marks ++ [(rowIndex, columnIndex + 1)]
          rowArena := st.rowArena }
      else { st with rows := rows1 }
    let st2 : SweepState :=
      if p.offsetRow + 1 < (cellOf cells p.cell).rowspan ∧
          ¬ st1.marks.contains (rowIndex + 1, columnIndex) then
        let (rows2, arena2, nr) :=
          match st1.rows[rowIndex + 1]? with
          | some nr => (st1.rows, st1.rowArena, nr)
          | none =>
            let rid := st1.rowArena.length
            let nr : TableRowPosition := { cells := rid, cellsPosition := [] }
            (st1.rows ++ [nr], st1.rowArena ++ [[]], nr)
        let bc := if columnIndex = 0 then none else nr.cellsPosition[columnIndex - 1]?
        let ac := nr.cellsPosition[columnIndex]?
        let newPos : TableCellPosition :=
          { beforeCell := bc.map (·.cell)
            afterCell := ac.map (·.cell)
            row := nr.cells
            cell := p.cell
            rowIndex := some (rowIndex : Int)
            columnIndex := some (columnIndex : Int)
            offsetColumn := p.offsetColumn
            offsetRow := p.offsetRow + 1 }
        { rows := updRow rows2 (rowIndex + 1) fun row =>
            { row with cellsPosition :=
                jsInsertAt row.cellsPosition (columnIndex : Int) newPos }
          marks := st1.marks ++ [(rowIndex + 1, columnIndex)]
          rowArena := arena2 }
      else st1
    (st2, true)

/- Inner `while (rowIndex < rows.length)` loop of a sweep pass. -/
def sweepRows (cells : List TableCell) :
    Nat → Nat → Nat → SweepState → Bool → SweepState × Bool
  | 0, _, _, st, stop => (st, stop)
  | fuel + 1, rowIndex, columnIndex, st, stop =>
    if rowIndex < st.rows.length then
      let v := sweepVisit cells st rowIndex columnIndex
      sweepRows cells fuel (rowIndex + 1) columnIndex v.1 (stop || v.2)
    else (st, stop)

/- Outer `do {} while (stop)` loop over column indices. -/
def sweepCols (cells : List TableCell) (innerFuel : Nat) :
    Nat → Nat → SweepState → SweepState
  | 0, _, st => st
  | fuel + 1, columnIndex, st =>
    let v := sweepRows cells innerFuel 0 columnIndex st false
    if v.2 then sweepCols cells innerFuel fuel (columnIndex + 1) v.1 else v.1

/- Ample fuel: the sweep inserts at most one position per distinct dedup
   mark, and for a well-formed grid the marks of a cell stay inside its
   span, so the total work is below the summed span areas. -/
def serializeFuel (s : TableState) : Nat :=
  (s.cellArena.foldl (fun n c => n + (c.rowspan + 1) * (c.colspan + 1)) 0) +
    s.rowArena.length + s.bodies.length + 8

/- `TableComponent.serialize`.  Returns the matrix together with the row
   arena extended by the empty row arrays synthesized for spans that run
   past the last grid row. -/
def serializeM (s : TableState) : List TableRowPosition × List (List Nat) :=
  let rows0 := s.bodies.map (seedRow s.rowArena)
  let F := serializeFuel s
  let st := sweepCols s.cellArena F F 0
    { rows := rows0, marks := [], rowArena := s.rowArena }
  (st.rows, st.rowArena)

structure TableRange where
  selectedCells : List Nat
  startCellPosition : TableCellPosition
  endCellPosition : TableCellPosition
deriving DecidableEq, Repr

/- JS `Array.prototype.map` whose callback can crash (access a property of
   `undefined`): the whole map crashes as soon as one element does. -/
def mapOpt (f : α → Option β) : List α → Option (List β)
  | [] => some []
  | a :: l => do
    let b ← f a
    let bs ← mapOpt f l
    some (b :: bs)

/- One evaluation of the four overflow amounts of `selectCellsByRange`:
   `x1` (negated max `offsetColumn` on the left edge), `x2` (max remaining
   colspan on the right edge), `y1`, `y2` (symmetric for rows).  `none`
   models the JS crashes (missing matrix entry, empty `Math.max` spread). -/
def rangeStep (cells : List TableCell) (m : List TableRowPosition)
    (minRow minColumn maxRow maxColumn : Int) : Option (Int × Int × Int × Int) := do
  let rowsSlice := jsSlice m minRow (maxRow + 1)
  let offs ← mapOpt (fun row =>
    (getIdx row.cellsPosition minColumn).map fun p => (p.offsetColumn : Int)) rowsSlice
  let mx1 ← maxOfI offs
  let rightOver ← mapOpt (fun row =>
    (getIdx row.cellsPosition maxColumn).map fun p =>
      ((cellOf cells p.cell).colspan : Int) - ((p.offsetColumn : Int) + 1)) rowsSlice
  let x2 ← maxOfI rightOver
  let topRow ← getIdx m minRow
  let my1 ← maxOfI ((jsSlice topRow.cellsPosition minColumn (maxColumn + 1)).map
    fun p => (p.offsetRow : Int))
  let botRow ← getIdx m maxRow
  let y2 ← maxOfI ((jsSlice botRow.cellsPosition minColumn (maxColumn + 1)).map
    fun p => ((cellOf cells p.cell).rowspan : Int) - ((p.offsetRow : Int) + 1))
  some (-mx1, x2, -my1, y2)

/- The fixed-point branch of `selectCellsByRange`: corner positions plus the
   deduplicated cells of the selected block (the seedless JS `reduce`
   crashes on an empty row slice, hence the `none`). -/
def rangeFinish (m : List TableRowPosition)
    (minRow minColumn maxRow maxColumn : Int) : Option TableRange := do
  let startCellPosition ← (getIdx m minRow).bind fun r => getIdx r.cellsPosition minColumn
  let endCellPosition ← (getIdx m maxRow).bind fun r => getIdx r.cellsPosition maxColumn
  let parts := (jsSlice m (startCellPosition.rowIndex.getD 0)
      ((endCellPosition.rowIndex.getD 0) + 1)).map fun row =>
    jsSlice row.cellsPosition (startCellPosition.columnIndex.getD 0)
      ((endCellPosition.columnIndex.getD 0) + 1)
  match parts with
  | [] => none
  | pHead :: pTail =>
    some { selectedCells := dedupFirst ((pTail.foldl (· ++ ·) pHead).map (·.cell))
           startCellPosition := startCellPosition
           endCellPosition := endCellPosition }

/- `TableComponent.selectCellsByRange`: recursive fixed-point expansion of
   the selection rectangle (fuelled; under the coverage invariant the
   rectangle strictly grows inside the matrix bounds, so
   `m.length + columns + 1` fuel always suffices). -/
def selectCellsByRangeAux (cells : List TableCell) (m : List TableRowPosition) :
    Nat → Int → Int → Int → Int → Option TableRange
  | 0, _, _, _, _ => none
  | fuel + 1, minRow, minColumn, maxRow, maxColumn =>
    match rangeStep cells m minRow minColumn maxRow maxColumn with
    | none => none
    | some (x1, x2, y1, y2) =>
      if x1 ≠ 0 ∨ y1 ≠ 0 ∨ x2 ≠ 0 ∨ y2 ≠ 0 then
        selectCellsByRangeAux cells m fuel
          (minRow + y1) (minColumn + x1) (maxRow + y2) (maxColumn + x2)
      else rangeFinish m minRow minColumn maxRow maxColumn

def rangeFuel (m : List TableRowPosition) : Nat :=
  m.length + (m.head?.elim 0 fun r => r.cellsPosition.length) + 4

def selectCellsByRange (cells : List TableCell) (m : List TableRowPosition)
    (minRow minColumn maxRow maxColumn : Int) : Option TableRange :=
  selectCellsByRangeAux cells m (rangeFuel m) minRow minColumn maxRow maxColumn

/- `TableComponent.findCellPosition`, forward scan (first matrix entry whose
   cell's fragment is `f`). -/
def findCellFwd (f : Nat) : List TableRowPosition → Nat → Option (Nat × Nat)
  | [], _ => none
  | row :: rest, r =>
    match row.cellsPosition.findIdx? (fun p => p.cell == f) with
    | some c => some (r, c)
    | none => findCellFwd f rest (r + 1)

/- Backward scan (last matrix entry whose cell's fragment is `f`). -/
def findCellBwd (m : List TableRowPosition) (f : Nat) : Option (Nat × Nat) :=
  m.enum.reverse.findSome? fun rc =>
    rc.2.cellsPosition.enum.reverse.findSome? fun cp =>
      if cp.2.cell == f then some (rc.1, cp.1) else none

structure TableCellRect where
  minRow : Int
  maxRow : Int
  minColumn : Int
  maxColumn : Int
deriving DecidableEq, Repr

def findCellPosition (m : List TableRowPosition) (f : Nat) : Option TableCellRect := do
  let fwd ← findCellFwd f m 0
  let bwd ← findCellBwd m f
  some { minRow := (fwd.1 : Int), maxRow := (bwd.1 : Int),
         minColumn := (fwd.2 : Int), maxColumn := (bwd.2 : Int) }

/- `TableComponent.selectCells` (also returns the state whose row arena was
   extended by the serialize call). -/
def selectCells (s0 : TableState) (startCell endCell : Nat) :
    Option TableRange × TableState :=
  let mr := serializeM s0
  let s := { s0 with rowArena := mr.2 }
  let r : Option TableRange := do
    let p1 ← findCellPosition mr.1 startCell
    let p2 ← findCellPosition mr.1 endCell
    selectCellsByRange s.cellArena mr.1
      (min p1.minRow p2.minRow) (min p1.minColumn p2.minColumn)
      (max p1.maxRow p2.maxRow) (max p1.maxColumn p2.maxColumn)
  (r, s)

/- `TableEditRange` of the commander (`params`). -/
structure TableEditRange where
  startPosition : TableCellPosition
  endPosition : TableCellPosition
deriving DecidableEq, Repr

/- Per-row body of `addColumnToLeft`'s `forEach`: prepend a fresh cell at
   column 0; otherwise insert a fresh cell at `indexOf(cell)` (JS `splice`
   semantics: before the anchor when the cell is stored in this row, else
   index `-1`, i.e. before the row's last element) when `offsetColumn = 0`,
   or bump `colspan` on the anchor row of a mid-span position. -/
def addColumnToLeftStep (index : Int) (s : TableState) (row : TableRowPosition) :
    Option TableState :=
  match getIdx row.cellsPosition index with
  | none => none
  | some cell =>
    if index = 0 then
      let af := allocCell s ⟨1, 1⟩
      let ra := setRow af.1.rowArena cell.row (af.2 :: rowGet af.1.rowArena cell.row)
      some { af.1 with rowArena := ra }
    else if cell.offsetColumn = 0 then
      let af := allocCell s ⟨1, 1⟩
      let L := rowGet af.1.rowArena cell.row
      let ra := setRow af.1.rowArena cell.row (jsInsertAt L (jsIndexOf L cell.cell) af.2)
      some { af.1 with rowArena := ra }
    else if cell.offsetRow = 0 then
      some (modCell s cell.cell fun c => { c with colspan := c.colspan + 1 })
    else
      some s

def shiftColumns (params : TableEditRange) (index d : Int) : TableEditRange :=
  if params.startPosition.cell = params.endPosition.cell then
    { params with startPosition :=
        { params.startPosition with columnIndex := some (index + d) } }
  else
    { startPosition := { params.startPosition with columnIndex := some (index + d) }
      endPosition := { params.endPosition with
        columnIndex := some (params.endPosition.columnIndex.getD 0 + d) } }

def shiftRows (params : TableEditRange) (index d : Int) : TableEditRange :=
  if params.startPosition.cell = params.endPosition.cell then
    { params with startPosition :=
        { params.startPosition with rowIndex := some (index + d) } }
  else
    { startPosition := { params.startPosition with rowIndex := some (index + d) }
      endPosition := { params.endPosition with
        rowIndex := some (params.endPosition.rowIndex.getD 0 + d) } }

/- `TableEditCommander.addColumnToLeft`. -/
def addColumnToLeft (s0 : TableState) (params : TableEditRange) :
    Option (TableState × TableEditRange) := do
  let mr := serializeM s0
  let s := { s0 with rowArena := mr.2 }
  let index ← params.startPosition.columnIndex
  let s' ← mr.1.foldlM (fun acc row => addColumnToLeftStep index acc row) s
  some (s', shiftColumns params index 1)

/- `TableEditCommander.addColumnToRight`. -/
def addColumnToRight (s0 : TableState) (params : TableEditRange) :
    Option (TableState × TableEditRange) := do
  let mr := serializeM s0
  let s := { s0 with rowArena := mr.2 }
  let index ← params.endPosition.columnIndex
  let s' ← mr.1.foldlM (fun acc row =>
    match getIdx row.cellsPosition index with
    | none => none
    | some cell =>
      if cell.offsetColumn + 1 < (cellOf acc.cellArena cell.cell).colspan then
        if cell.offsetRow = 0 then
          some (modCell acc cell.cell fun c => { c with colspan := c.colspan + 1 })
        else some acc
      else
        let af := allocCell acc ⟨1, 1⟩
        let L := rowGet af.1.rowArena cell.row
        let ra := setRow af.1.rowArena cell.row (jsInsertAt L (jsIndexOf L cell.cell + 1) af.2)
        some { af.1 with rowArena := ra }) s
  some (s', params)

/- `TableEditCommander.addRowToTop`. -/
def addRowToTop (s0 : TableState) (params : TableEditRange) :
    Option (TableState × TableEditRange) := do
  let mr := serializeM s0
  let s := { s0 with rowArena := mr.2 }
  let index ← params.startPosition.rowIndex
  let row ← getIdx mr.1 index
  let built ←
    if index = 0 then do
      let r0 ← mr.1[0]?
      let n := (rowGet s.rowArena r0.cells).length
      some ((List.range n).foldl (fun (acc : TableState × List Nat) _ =>
        let af := allocCell acc.1 ⟨1, 1⟩
        (af.1, acc.2 ++ [af.2])) (s, []))
    else
      some (row.cellsPosition.foldl (fun (acc : TableState × List Nat) cell =>
        if cell.offsetRow > 0 then
          if cell.offsetColumn = 0 then
            (modCell acc.1 cell.cell fun c => { c with rowspan := c.rowspan + 1 }, acc.2)
          else acc
        else
          let af := allocCell acc.1 ⟨1, 1⟩
          (af.1, acc.2 ++ [af.2])) (s, []))
  let s1 := built.1
  let rid := s1.rowArena.length
  let s2 : TableState :=
    { s1 with rowArena := s1.rowArena ++ [built.2]
              bodies := jsInsertAt s1.bodies (jsIndexOf s1.bodies row.cells) rid }
  some (s2, shiftRows params index 1)

/- `TableEditCommander.addRowToBottom`. -/
def addRowToBottom (s0 : TableState) (params : TableEditRange) :
    Option (TableState × TableEditRange) := do
  let mr := serializeM s0
  let s := { s0 with rowArena := mr.2 }
  let index ← params.endPosition.rowIndex
  let row ← getIdx mr.1 index
  let built := row.cellsPosition.foldl (fun (acc : TableState × List Nat) cell =>
    if cell.offsetRow + 1 < (cellOf acc.1.cellArena cell.cell).rowspan then
      if cell.offsetColumn = 0 then
        (modCell acc.1 cell.cell fun c => { c with rowspan := c.rowspan + 1 }, acc.2)
      else acc
    else
      let af := allocCell acc.1 ⟨1, 1⟩
      (af.1, acc.2 ++ [af.2])) (s, [])
  let s1 := built.1
  let rid := s1.rowArena.length
  let s2 : TableState :=
    { s1 with rowArena := s1.rowArena ++ [built.2]
              bodies := jsInsertAt s1.bodies (jsIndexOf s1.bodies row.cells + 1) rid }
  some (s2, params)

/- Per-row anchor collection of `TableEditCommander.mergeCells` (the
   `slice`/`map`/`filter` pipeline before the `reduce`). -/
def mergeParts (s0 : TableState) (params : TableEditRange) :
    List (List TableCellPosition) :=
  let mr := serializeM s0
  let minRow := params.startPosition.rowIndex.getD 0
  let minColumn := params.startPosition.columnIndex.getD 0
  let maxRow := params.endPosition.rowIndex.getD 0
  let maxColumn := params.endPosition.columnIndex.getD 0
  (jsSlice mr.1 minRow (maxRow + 1)).map fun row =>
    (jsSlice row.cellsPosition minColumn (maxColumn + 1)).filter fun c =>
      c.offsetRow = 0 ∧ c.offsetColumn = 0

/- One `forEach` body of `mergeCells`' removal loop: drop the anchor cell
   from its row when present, and drop the row from `bodies` when it
   becomes empty. -/
def mergeRemoveStep (acc : TableState) (cell : TableCellPosition) : TableState :=
  let L := rowGet acc.rowArena cell.row
  let idx := jsIndexOf L cell.cell
  if idx > -1 then
    let L' := jsRemoveAt L idx
    let acc1 := { acc with rowArena := setRow acc.rowArena cell.row L' }
    if L'.length = 0 then
      { acc1 with bodies := jsRemoveAt acc1.bodies (jsIndexOf acc1.bodies cell.row) }
    else acc1
  else acc

/- The `reduce((p, n) => p.concat(n))` over the parts: JS `reduce` without
   an initial value throws on an empty array. -/
def mergeSelected (s0 : TableState) (params : TableEditRange) :
    Option (List TableCellPosition) :=
  match mergeParts s0 params with
  | [] => none
  | x :: xs => some (xs.foldl (· ++ ·) x)

/- Grid mutation part of `TableEditCommander.mergeCells`: collect the anchor
   positions inside the rectangle, make the first the surviving cell with
   the rectangle's height/width as spans, remove every other anchor cell
   from its row (discarding its content handle) and drop rows left empty. -/
def mergeCellsCore (s0 : TableState) (params : TableEditRange) :
    Option (TableState × TableCellPosition) := do
  let mr := serializeM s0
  let s := { s0 with rowArena := mr.2 }
  let minRow := params.startPosition.rowIndex.getD 0
  let minColumn := params.startPosition.columnIndex.getD 0
  let maxRow := params.endPosition.rowIndex.getD 0
  let maxColumn := params.endPosition.columnIndex.getD 0
  let selected ← mergeSelected s0 params
  let newNode ← selected.head?
  let s1 := modCell s newNode.cell fun c =>
    { c with rowspan := (maxRow - minRow + 1).toNat
             colspan := (maxColumn - minColumn + 1).toNat }
  let s2 := selected.tail.foldl mergeRemoveStep s1
  some (s2, newNode)

/- `TableEditCommander.mergeCells`: mutate the grid, then re-select the
   surviving cell via `selectCells` and collapse `params` onto it. -/
def mergeCells (s0 : TableState) (params : TableEditRange) :
    Option (TableState × TableEditRange) := do
  let cr ← mergeCellsCore s0 params
  let sel := selectCells cr.1 cr.2.cell cr.2.cell
  let rng ← sel.1
  some (sel.2, { startPosition := rng.startCellPosition
                 endPosition := rng.endCellPosition })

/- `TableEditCommander.splitCells`: for every non-anchor position in the
   rectangle, reset the originating cell's spans to 1, re-attach the
   position's row to `bodies` when detached, and insert a fresh 1x1 cell
   after the originating cell (JS `indexOf` semantics) or append it when
   the position has no `afterCell`. -/
def splitCells (s0 : TableState) (params : TableEditRange) :
    Option (TableState × TableEditRange) := do
  let mr := serializeM s0
  let s := { s0 with rowArena := mr.2 }
  let minRow := params.startPosition.rowIndex.getD 0
  let minColumn := params.startPosition.columnIndex.getD 0
  let maxRow := params.endPosition.rowIndex.getD 0
  let maxColumn := params.endPosition.columnIndex.getD 0
  let selected := ((jsSlice mr.1 minRow (maxRow + 1)).map fun row =>
    jsSlice row.cellsPosition minColumn (maxColumn + 1)).foldl (· ++ ·) []
  let s' := selected.foldl (fun acc cell =>
    if cell.offsetRow ≠ 0 ∨ cell.offsetColumn ≠ 0 then
      let acc1 := modCell acc cell.cell fun c => { c with colspan := 1, rowspan := 1 }
      let af := allocCell acc1 ⟨1, 1⟩
      let acc2 := af.1
      let acc3 := if acc2.bodies.contains cell.row then acc2
        else { acc2 with bodies := jsInsertAt acc2.bodies (cell.rowIndex.getD 0) cell.row }
      let L := rowGet acc3.rowArena cell.row
      let L' := if cell.afterCell.isSome then
          jsInsertAt L (jsIndexOf L cell.cell + 1) af.2
        else L ++ [af.2]
      { acc3 with rowArena := setRow acc3.rowArena cell.row L' }
    else acc) s
  some (s', params)

/- One `forEach` body of `deleteTopRow` over the previous row's position
   list (`cp` is `(cellIndex, cell)`). -/
def deleteTopRowStep (m : List TableRowPosition) (index : Int)
    (acc : TableState) (cp : Nat × TableCellPosition) : Option TableState :=
  let cell := cp.2
  if cell.offsetColumn = 0 then
    if cell.offsetRow = 0 ∧ (cellOf acc.cellArena cell.cell).rowspan > 1 then do
      let rs := (cellOf acc.cellArena cell.cell).rowspan
      let cs := (cellOf acc.cellArena cell.cell).colspan
      let af := allocCell acc ⟨rs - 1, cs⟩
      let newPosition ← (getIdx m index).bind fun r => r.cellsPosition[cp.1]?
      let L := rowGet af.1.rowArena newPosition.row
      let L' := match newPosition.afterCell with
        | some after => jsInsertAt L (jsIndexOf L after) af.2
        | none => L ++ [af.2]
      some { af.1 with rowArena := setRow af.1.rowArena newPosition.row L' }
    else
      some (modCell acc cell.cell fun c => { c with rowspan := c.rowspan - 1 })
  else some acc

/- `TableEditCommander.deleteTopRow`. -/
def deleteTopRow (s0 : TableState) (params : TableEditRange) :
    Option (TableState × TableEditRange) := do
  let mr := serializeM s0
  let s := { s0 with rowArena := mr.2 }
  let index ← params.startPosition.rowIndex
  if index = 0 then
    some (s, params)
  else do
    let prevRow ← getIdx mr.1 (index - 1)
    let s' ← prevRow.cellsPosition.enum.foldlM (deleteTopRowStep mr.1 index) s
    let s'' := { s' with
      bodies := jsRemoveAt s'.bodies (jsIndexOf s'.bodies prevRow.cells) }
    some (s'', shiftRows params index (-1))

/- `TableEditCommander.deleteBottomRow`. -/
def deleteBottomRow (s0 : TableState) (params : TableEditRange) :
    Option (TableState × TableEditRange) := do
  let mr := serializeM s0
  let s := { s0 with rowArena := mr.2 }
  let index ← params.endPosition.rowIndex
  if index = (mr.1.length : Int) - 1 then
    some (s, params)
  else do
    let nextRow ← getIdx mr.1 (index + 1)
    let s' ← nextRow.cellsPosition.enum.foldlM (fun acc (cp : Nat × TableCellPosition) =>
      let cell := cp.2
      if cell.offsetColumn = 0 then
        if cell.offsetRow > 0 then
          some (modCell acc cell.cell fun c => { c with rowspan := c.rowspan - 1 })
        else if (cellOf acc.cellArena cell.cell).rowspan > 1 then do
          let rs := (cellOf acc.cellArena cell.cell).rowspan
          let cs := (cellOf acc.cellArena cell.cell).colspan
          let newPosition ← (getIdx mr.1 (index + 2)).bind fun r => r.cellsPosition[cp.1]?
          let af := allocCell acc ⟨rs - 1, cs⟩
          let L := rowGet af.1.rowArena newPosition.row
          let L' := match newPosition.afterCell with
            | some after => jsInsertAt L (jsIndexOf L after) af.2
            | none => L ++ [af.2]
          some { af.1 with rowArena := setRow af.1.rowArena newPosition.row L' }
        else some acc
      else some acc) s
    let s'' := { s' with
      bodies := jsRemoveAt s'.bodies (jsIndexOf s'.bodies nextRow.cells) }
    some (s'', params)

/- `TableEditCommander.deleteLeftColumn`. -/
def deleteLeftColumn (s0 : TableState) (params : TableEditRange) :
    Option (TableState × TableEditRange) := do
  let mr := serializeM s0
  let s := { s0 with rowArena := mr.2 }
  let index ← params.startPosition.columnIndex
  if index = 0 then
    some (s, params)
  else do
    let s' ← mr.1.foldlM (fun acc row => do
      let cell ← getIdx row.cellsPosition (index - 1)
      if cell.offsetRow = 0 then
        if cell.offsetColumn > 0 then
          some (modCell acc cell.cell fun c => { c with colspan := c.colspan - 1 })
        else
          let L := rowGet acc.rowArena cell.row
          let idx := jsIndexOf L cell.cell
          if (cellOf acc.cellArena cell.cell).colspan > 1 then
            let af := allocCell acc ⟨(cellOf acc.cellArena cell.cell).rowspan,
              (cellOf acc.cellArena cell.cell).colspan - 1⟩
            let L1 := rowGet af.1.rowArena cell.row
            let ra := setRow af.1.rowArena cell.row (jsReplaceAt L1 (jsIndexOf L1 cell.cell) af.2)
            some { af.1 with rowArena := ra }
          else
            some { acc with rowArena := setRow acc.rowArena cell.row (jsRemoveAt L idx) }
      else some acc) s
    some (s', shiftColumns params index (-1))

/- `TableEditCommander.deleteRightColumn`. -/
def deleteRightColumn (s0 : TableState) (params : TableEditRange) :
    Option (TableState × TableEditRange) := do
  let mr := serializeM s0
  let s := { s0 with rowArena := mr.2 }
  let index ← params.endPosition.columnIndex
  let r0 ← mr.1[0]?
  if index = (r0.cellsPosition.length : Int) - 1 then
    some (s, params)
  else do
    let s' ← mr.1.foldlM (fun acc row => do
      let cell ← getIdx row.cellsPosition (index + 1)
      if cell.offsetRow = 0 then
        if cell.offsetColumn > 0 then
          some (modCell acc cell.cell fun c => { c with colspan := c.colspan - 1 })
        else
          let L := rowGet acc.rowArena cell.row
          let idx := jsIndexOf L cell.cell
          if (cellOf acc.cellArena cell.cell).colspan > 1 then
            let af := allocCell acc ⟨(cellOf acc.cellArena cell.cell).rowspan,
              (cellOf acc.cellArena cell.cell).colspan - 1⟩
            let ra := setRow af.1.rowArena cell.row
              (jsReplaceAt (rowGet af.1.rowArena cell.row) idx af.2)
            some { af.1 with rowArena := ra }
          else
            some { acc with rowArena := setRow acc.rowArena cell.row (jsRemoveAt L idx) }
      else some acc) s
    some (s', params)

inductive TableEditActions where
  | AddColumnToLeft
  | AddColumnToRight
  | AddRowToTop
  | AddRowToBottom
  | MergeCells
  | SplitCells
  | DeleteTopRow
  | DeleteBottomRow
  | DeleteLeftColumn
  | DeleteRightColumn
deriving DecidableEq, Repr

def applyAction (s : TableState) (params : TableEditRange) :
    TableEditActions → Option (TableState × TableEditRange)
  | .AddColumnToLeft => addColumnToLeft s params
  | .AddColumnToRight => addColumnToRight s params
  | .AddRowToTop => addRowToTop s params
  | .AddRowToBottom => addRowToBottom s params
  | .MergeCells => mergeCells s params
  | .SplitCells => splitCells s params
  | .DeleteTopRow => deleteTopRow s params
  | .DeleteBottomRow => deleteBottomRow s params
  | .DeleteLeftColumn => deleteLeftColumn s params
  | .DeleteRightColumn => deleteRightColumn s params

structure CommandResult where
  recordHistory : Bool
  result : Option (TableState × TableEditRange)
  dirtied : Bool
deriving DecidableEq, Repr

/- `TableEditCommander.command`: the dispatcher.  The surrounding core API
   resolves `selection.firstRange.startFragment.getContext(TableComponent)`;
   that resolution is external to this repository, so the dispatcher takes
   the resolved context (`none` when the selection is not inside a table).
   `recordHistory` is set to `true` on entry, reset to `false` on the early
   return, and `markAsDirtied` runs after a completed operation (a crashed
   operation is modelled by `result = none, dirtied = false`). -/
def command (context : Option TableState) (params : TableEditRange)
    (actionType : TableEditActions) : CommandResult :=
  match context with
  | none => { recordHistory := false, result := none, dirtied := false }
  | some s =>
    match applyAction s params actionType with
    | some r => { recordHistory := true, result := some r, dirtied := true }
    | none => { recordHistory := true, result := none, dirtied := false }

/- The sweep only ever appends fresh empty row arrays to the row arena. -/
def ArenaExt (a a' : List (List Nat)) : Prop :=
  ∃ t, a' = a ++ t ∧ ∀ l ∈ t, l = []

theorem arenaExt_refl (a : List (List Nat)) : ArenaExt a a :=
  ⟨[], by simp, by simp⟩

theorem arenaExt_trans {a b c : List (List Nat)} (h1 : ArenaExt a b)
    (h2 : ArenaExt b c) : ArenaExt a c := by
  obtain ⟨t1, rfl, ht1⟩ := h1
  obtain ⟨t2, rfl, ht2⟩ := h2
  exact ⟨t1 ++ t2, by simp, by
    intro l hl
    rcases List.mem_append.mp hl with h | h
    · exact ht1 l h
    · exact ht2 l h⟩

theorem arenaExt_push (a : List (List Nat)) : ArenaExt a (a ++ [[]]) :=
  ⟨[[]], rfl, by simp⟩

theorem arenaExt_rowGet {a a' : List (List Nat)} (h : ArenaExt a a') (i : Nat) :
    rowGet a' i = rowGet a i := by
  obtain ⟨t, rfl, ht⟩ := h
  unfold rowGet
  rcases lt_or_le i a.length with hi | hi
  · rw [List.getD_eq_getElem?_getD, List.getD_eq_getElem?_getD,
      List.getElem?_append_left hi]
  · rw [List.getD_eq_getElem?_getD, List.getD_eq_getElem?_getD,
      List.getElem?_append_right hi, List.getElem?_eq_none hi]
    cases ht' : t[i - a.length]? with
    | none => simp
    | some l => simp [ht l (List.getElem?_mem ht')]

theorem sweepVisit_arena (cells : List TableCell) (st : SweepState) (r c : Nat) :
    ArenaExt st.rowArena ((sweepVisit cells st r c).1).rowArena := by
  unfold sweepVisit
  cases (st.rows[r]?).bind (fun row => row.cellsPosition[c]?) with
  | none => exact arenaExt_refl _
  | some p0 =>
    dsimp only []
    split
    · split
      · split
        · exact arenaExt_refl _
        · exact arenaExt_push _
      · exact arenaExt_refl _
    · split
      · split
        · exact arenaExt_refl _
        · exact arenaExt_push _
      · exact arenaExt_refl _

theorem sweepRows_arena (cells : List TableCell) (fuel r c : Nat) (st : SweepState)
    (stop : Bool) :
    ArenaExt st.rowArena ((sweepRows cells fuel r c st stop).1).rowArena := by
  induction fuel generalizing r st stop with
  | zero => exact arenaExt_refl _
  | succ n ih =>
    rw [sweepRows]
    split
    · exact arenaExt_trans (sweepVisit_arena cells st r c) (ih _ _ _)
    · exact arenaExt_refl _

theorem sweepCols_arena (cells : List TableCell) (innerFuel fuel c : Nat)
    (st : SweepState) :
    ArenaExt st.rowArena ((sweepCols cells innerFuel fuel c st)).rowArena := by
  induction fuel generalizing c st with
  | zero => exact arenaExt_refl _
  | succ n ih =>
    rw [sweepCols]
    split
    · exact arenaExt_trans (sweepRows_arena cells innerFuel 0 c st false) (ih _ _)
    · exact sweepRows_arena cells innerFuel 0 c st false

theorem serializeM_arena (s : TableState) : ArenaExt s.rowArena (serializeM s).2 :=
  sweepCols_arena _ _ _ _ _

/- The state every operation works on after its internal `serialize` call:
   only the row arena is (conservatively) extended by synthesized empty
   rows, which are unreachable from `bodies`. -/
def postSerialize (s : TableState) : TableState :=
  { s with rowArena := (serializeM s).2 }

/- "No cell, span, or row modified": identical cell arena and row list, and
   every row array holds the same cells. -/
def SameStore (s s' : TableState) : Prop :=
  s'.cellArena = s.cellArena ∧ s'.bodies = s.bodies ∧
    ∀ rid, rowGet s'.rowArena rid = rowGet s.rowArena rid

theorem postSerialize_sameStore (s : TableState) : SameStore s (postSerialize s) :=
  ⟨rfl, rfl, fun rid => arenaExt_rowGet (serializeM_arena s) rid⟩

/-- C9: each of the four delete operations, when requested at its grid edge
(`DeleteTopRow`/`DeleteLeftColumn` with target index 0,
`DeleteBottomRow`/`DeleteRightColumn` with target index equal to the last
row/column index of the projected matrix), returns without raising an error
and leaves the grid store completely unchanged: no cell, span, or row is
modified (the returned state differs from the input at most by unreachable
empty row arrays synthesized by the internal `serialize` call). -/
theorem deleteOps_boundary_noop (s : TableState) (params : TableEditRange) :
    (params.startPosition.rowIndex = some 0 →
      deleteTopRow s params = some (postSerialize s, params)) ∧
    (params.endPosition.rowIndex = some (((serializeM s).1.length : Int) - 1) →
      deleteBottomRow s params = some (postSerialize s, params)) ∧
    (params.startPosition.columnIndex = some 0 →
      deleteLeftColumn s params = some (postSerialize s, params)) ∧
    ((serializeM s).1 ≠ [] →
      params.endPosition.columnIndex =
        some (((((serializeM s).1.headD ⟨0, []⟩).cellsPosition.length : Int)) - 1) →
      deleteRightColumn s params = some (postSerialize s, params)) ∧
    SameStore s (postSerialize s) := by
  refine ⟨?_, ?_, ?_, ?_, postSerialize_sameStore s⟩
  · intro h
    simp [deleteTopRow, h, postSerialize]
  · intro h
    simp [deleteBottomRow, h, postSerialize]
  · intro h
    simp [deleteLeftColumn, h, postSerialize]
  · intro hne h
    have h0 : (serializeM s).1[0]? = some ((serializeM s).1.headD ⟨0, []⟩) := by
      cases hm : (serializeM s).1 with
      | nil => exact absurd hm hne
      | cons a t => simp [hm]
    simp [deleteRightColumn, h, h0, postSerialize]

/-- Witness for C9 on a concrete 2x2 grid of four 1x1 cells with the
selection spanning the whole grid (all four boundary guards hold). -/
theorem deleteOps_boundary_noop_witness :
    deleteTopRow ⟨[⟨1,1⟩, ⟨1,1⟩, ⟨1,1⟩, ⟨1,1⟩], [[0,1],[2,3]], [0,1]⟩
        ⟨⟨none, none, 0, 0, some 0, some 0, 0, 0⟩, ⟨none, none, 1, 3, some 1, some 1, 0, 0⟩⟩ =
      some (postSerialize ⟨[⟨1,1⟩, ⟨1,1⟩, ⟨1,1⟩, ⟨1,1⟩], [[0,1],[2,3]], [0,1]⟩,
        ⟨⟨none, none, 0, 0, some 0, some 0, 0, 0⟩, ⟨none, none, 1, 3, some 1, some 1, 0, 0⟩⟩) ∧
    deleteBottomRow ⟨[⟨1,1⟩, ⟨1,1⟩, ⟨1,1⟩, ⟨1,1⟩], [[0,1],[2,3]], [0,1]⟩
        ⟨⟨none, none, 0, 0, some 0, some 0, 0, 0⟩, ⟨none, none, 1, 3, some 1, some 1, 0, 0⟩⟩ =
      some (postSerialize ⟨[⟨1,1⟩, ⟨1,1⟩, ⟨1,1⟩, ⟨1,1⟩], [[0,1],[2,3]], [0,1]⟩,
        ⟨⟨none, none, 0, 0, some 0, some 0, 0, 0⟩, ⟨none, none, 1, 3, some 1, some 1, 0, 0⟩⟩) ∧
    deleteLeftColumn ⟨[⟨1,1⟩, ⟨1,1⟩, ⟨1,1⟩, ⟨1,1⟩], [[0,1],[2,3]], [0,1]⟩
        ⟨⟨none, none, 0, 0, some 0, some 0, 0, 0⟩, ⟨none, none, 1, 3, some 1, some 1, 0, 0⟩⟩ =
      some (postSerialize ⟨[⟨1,1⟩, ⟨1,1⟩, ⟨1,1⟩, ⟨1,1⟩], [[0,1],[2,3]], [0,1]⟩,
        ⟨⟨none, none, 0, 0, some 0, some 0, 0, 0⟩, ⟨none, none, 1, 3, some 1, some 1, 0, 0⟩⟩) ∧
    deleteRightColumn ⟨[⟨1,1⟩, ⟨1,1⟩, ⟨1,1⟩, ⟨1,1⟩], [[0,1],[2,3]], [0,1]⟩
        ⟨⟨none, none, 0, 0, some 0, some 0, 0, 0⟩, ⟨none, none, 1, 3, some 1, some 1, 0, 0⟩⟩ =
      some (postSerialize ⟨[⟨1,1⟩, ⟨1,1⟩, ⟨1,1⟩, ⟨1,1⟩], [[0,1],[2,3]], [0,1]⟩,
        ⟨⟨none, none, 0, 0, some 0, some 0, 0, 0⟩, ⟨none, none, 1, 3, some 1, some 1, 0, 0⟩⟩) := by
  obtain ⟨h1, h2, h3, h4, -⟩ := deleteOps_boundary_noop
    ⟨[⟨1,1⟩, ⟨1,1⟩, ⟨1,1⟩, ⟨1,1⟩], [[0,1],[2,3]], [0,1]⟩
    ⟨⟨none, none, 0, 0, some 0, some 0, 0, 0⟩, ⟨none, none, 1, 3, some 1, some 1, 0, 0⟩⟩
  exact ⟨h1 rfl, h2 (by decide), h3 rfl, h4 (by decide) (by decide)⟩

/-- C10: for every action type, when the selection's start fragment has no
enclosing `TableComponent` (`context = none`), `command` returns before
reaching any edit operation (no grid state is produced or mutated) with
`recordHistory = false`; otherwise `recordHistory = true` and the table
component is marked as dirtied after the (completed) operation. -/
theorem command_context_guard :
    (∀ (params : TableEditRange) (a : TableEditActions),
      command none params a = ⟨false, none, false⟩) ∧
    (∀ (s : TableState) (params : TableEditRange) (a : TableEditActions)
        (r : TableState × TableEditRange), applyAction s params a = some r →
      command (some s) params a = ⟨true, some r, true⟩) := by
  refine ⟨fun _ _ => rfl, fun s params a r h => ?_⟩
  simp [command, h]

/-- Witness for C10: no context blocks a `MergeCells` dispatch; with a
context, a boundary `DeleteTopRow` completes and marks the table dirtied. -/
theorem command_context_guard_witness :
    command none
        ⟨⟨none, none, 0, 0, some 0, some 0, 0, 0⟩, ⟨none, none, 0, 0, some 0, some 0, 0, 0⟩⟩
        TableEditActions.MergeCells = ⟨false, none, false⟩ ∧
    command (some ⟨[⟨1,1⟩], [[0]], [0]⟩)
        ⟨⟨none, none, 0, 0, some 0, some 0, 0, 0⟩, ⟨none, none, 0, 0, some 0, some 0, 0, 0⟩⟩
        TableEditActions.DeleteTopRow =
      ⟨true, some (postSerialize ⟨[⟨1,1⟩], [[0]], [0]⟩,
        ⟨⟨none, none, 0, 0, some 0, some 0, 0, 0⟩, ⟨none, none, 0, 0, some 0, some 0, 0, 0⟩⟩), true⟩ :=
  ⟨command_context_guard.1 _ _, command_context_guard.2 _ _ _ _ (by decide)⟩

/- ----------------------------------------------------------------- -/
/- Matrix coverage invariant (§3 of the spec): the interface between a
   valid grid's projected matrix and the rectangle normalizer. -/

def getPos (m : List TableRowPosition) (r c : Nat) : Option TableCellPosition :=
  (m[r]?).bind fun row => row.cellsPosition[c]?

/- Executable check of the span-coverage invariant for an `R x C` matrix:
   rectangularity; every position carries its own coordinates, offsets
   within its cell's spans and within the grid, the whole span inside the
   bounding box; and every coordinate of the span holds a position for the
   same cell with the matching offsets. -/
def coverageCheck (cells : List TableCell) (m : List TableRowPosition) (R C : Nat) : Bool :=
  (m.length == R) &&
  m.all (fun row => row.cellsPosition.length == C) &&
  (List.range R).all fun r => (List.range C).all fun c =>
    match getPos m r c with
    | none => false
    | some p =>
      (p.rowIndex == some (r : Int)) && (p.columnIndex == some (c : Int)) &&
      decide (p.offsetRow ≤ r) && decide (p.offsetColumn ≤ c) &&
      decide (p.offsetRow < (cellOf cells p.cell).rowspan) &&
      decide (p.offsetColumn < (cellOf cells p.cell).colspan) &&
      decide (r - p.offsetRow + (cellOf cells p.cell).rowspan ≤ R) &&
      decide (c - p.offsetColumn + (cellOf cells p.cell).colspan ≤ C) &&
      ((List.range (cellOf cells p.cell).rowspan).all fun i =>
        (List.range (cellOf cells p.cell).colspan).all fun j =>
          match getPos m (r - p.offsetRow + i) (c - p.offsetColumn + j) with
          | none => false
          | some q => (q.cell == p.cell) && (q.offsetRow == i) && (q.offsetColumn == j))

/- The facts `coverageCheck` certifies about the position at `(r, c)`. -/
structure PosFacts (cells : List TableCell) (m : List TableRowPosition)
    (R C r c : Nat) (p : TableCellPosition) : Prop where
  rowIdx : p.rowIndex = some (r : Int)
  colIdx : p.columnIndex = some (c : Int)
  offR_le : p.offsetRow ≤ r
  offC_le : p.offsetColumn ≤ c
  offR_lt : p.offsetRow < (cellOf cells p.cell).rowspan
  offC_lt : p.offsetColumn < (cellOf cells p.cell).colspan
  span_row : r - p.offsetRow + (cellOf cells p.cell).rowspan ≤ R
  span_col : c - p.offsetColumn + (cellOf cells p.cell).colspan ≤ C
  member : ∀ i j, i < (cellOf cells p.cell).rowspan → j < (cellOf cells p.cell).colspan →
    ∃ q, getPos m (r - p.offsetRow + i) (c - p.offsetColumn + j) = some q ∧
      q.cell = p.cell ∧ q.offsetRow = i ∧ q.offsetColumn = j

theorem coverage_length {cells : List TableCell} {m : List TableRowPosition} {R C : Nat}
    (h : coverageCheck cells m R C = true) : m.length = R := by
  unfold coverageCheck at h
  simp only [Bool.and_eq_true, beq_iff_eq] at h
  exact h.1.1

theorem coverage_rowLength {cells : List TableCell} {m : List TableRowPosition} {R C : Nat}
    (h : coverageCheck cells m R C = true) :
    ∀ row ∈ m, row.cellsPosition.length = C := by
  unfold coverageCheck at h
  simp only [Bool.and_eq_true, List.all_eq_true, beq_iff_eq] at h
  exact h.1.2

theorem coverage_pos {cells : List TableCell} {m : List TableRowPosition} {R C : Nat}
    (h : coverageCheck cells m R C = true) {r c : Nat} (hr : r < R) (hc : c < C) :
    ∃ p, getPos m r c = some p ∧ PosFacts cells m R C r c p := by
  unfold coverageCheck at h
  simp only [Bool.and_eq_true, List.all_eq_true, List.mem_range, beq_iff_eq,
    decide_eq_true_eq] at h
  have h3 := h.2 r hr c hc
  revert h3
  cases hp : getPos m r c with
  | none => intro h3; exact absurd h3 (by simp)
  | some p =>
    intro h3
    simp only [Bool.and_eq_true, beq_iff_eq, decide_eq_true_eq, List.all_eq_true,
      List.mem_range] at h3
    obtain ⟨⟨⟨⟨⟨⟨⟨⟨h1', h2'⟩, h3'⟩, h4'⟩, h5'⟩, h6'⟩, h7'⟩, h8'⟩, h9'⟩ := h3
    refine ⟨p, rfl, ⟨h1', h2', h3', h4', h5', h6', h7', h8', ?_⟩⟩
    intro i j hi hj
    have := h9' i hi j hj
    revert this
    cases hq : getPos m (r - p.offsetRow + i) (c - p.offsetColumn + j) with
    | none => intro hcon; exact absurd hcon (by simp)
    | some q =>
      intro hq'
      simp only [Bool.and_eq_true, beq_iff_eq] at hq'
      exact ⟨q, rfl, hq'.1.1, hq'.1.2, hq'.2⟩

/- Every in-bounds row exists and has exactly `C` positions. -/
theorem coverage_row {cells : List TableCell} {m : List TableRowPosition} {R C : Nat}
    (h : coverageCheck cells m R C = true) {r : Nat} (hr : r < R) :
    ∃ row, m[r]? = some row ∧ row.cellsPosition.length = C := by
  have hl := coverage_length h
  have hrow : r < m.length := by omega
  exact ⟨m[r], List.getElem?_eq_getElem hrow,
    coverage_rowLength h _ (List.getElem_mem hrow)⟩

/- ----------------------------------------------------------------- -/
/- List helpers for the normalizer proofs. -/

theorem mapOpt_eq_map_of {α β : Type} (f : α → Option β) (g : α → β) :
    ∀ l : List α, (∀ x ∈ l, f x = some (g x)) → mapOpt f l = some (l.map g)
  | [], _ => rfl
  | a :: l, h => by
    have ha := h a (by simp)
    have hl := mapOpt_eq_map_of f g l (fun x hx => h x (by simp [hx]))
    simp [mapOpt, ha, hl]

theorem maxOfI_spec : ∀ l : List Int, l ≠ [] →
    ∃ v, maxOfI l = some v ∧ v ∈ l ∧ ∀ x ∈ l, x ≤ v
  | [], h => absurd rfl h
  | a :: l, _ => by
    cases l with
    | nil => exact ⟨a, by simp [maxOfI], by simp, by simp⟩
    | cons b t =>
      obtain ⟨v, hv, hmem, hle⟩ := maxOfI_spec (b :: t) (by simp)
      have hout : maxOfI (a :: b :: t) = some (max a v) := by
        rw [maxOfI, hv]
        rfl
      refine ⟨max a v, hout, ?_, ?_⟩
      · rcases le_total a v with hav | hav
        · rw [max_eq_right hav]
          exact List.mem_cons_of_mem a hmem
        · rw [max_eq_left hav]
          exact List.mem_cons_self a _
      · intro x hx
        rcases List.mem_cons.mp hx with rfl | hx'
        · exact le_max_left _ _
        · exact le_trans (hle x hx') (le_max_right a v)

theorem jsSlice_spec {α : Type} (l : List α) (a1 a2 : Int) (h0 : 0 ≤ a1)
    (h12 : a1 ≤ a2) (h2 : a2 < (l.length : Int)) :
    (jsSlice l a1 (a2 + 1)).length = a2.toNat + 1 - a1.toNat ∧
    ∀ k : Nat, k < a2.toNat + 1 - a1.toNat →
      (jsSlice l a1 (a2 + 1))[k]? = l[a1.toNat + k]? := by
  have hn1 : jsNorm l.length a1 = a1.toNat := by
    unfold jsNorm
    rw [if_neg (by omega)]
    omega
  have hn2 : jsNorm l.length (a2 + 1) = a2.toNat + 1 := by
    unfold jsNorm
    rw [if_neg (by omega)]
    omega
  unfold jsSlice
  rw [hn1, hn2]
  constructor
  · rw [List.length_take, List.length_drop]
    omega
  · intro k hk
    rw [List.getElem?_take, if_pos hk, List.getElem?_drop]

/- Maximum of a mapped JS slice: it is attained at some index of `[a1, a2]`
   and bounds the value at every index of `[a1, a2]`. -/
theorem maxOf_slice_spec {α : Type} (l : List α) (a1 a2 : Int) (g : α → Int)
    (h0 : 0 ≤ a1) (h12 : a1 ≤ a2) (h2 : a2 < (l.length : Int)) :
    ∃ v, maxOfI ((jsSlice l a1 (a2 + 1)).map g) = some v ∧
      (∃ k : Nat, a1 ≤ (k : Int) ∧ (k : Int) ≤ a2 ∧ ∃ x, l[k]? = some x ∧ g x = v) ∧
      (∀ k : Nat, a1 ≤ (k : Int) → (k : Int) ≤ a2 → ∀ x, l[k]? = some x → g x ≤ v) := by
  obtain ⟨hlen, hget⟩ := jsSlice_spec l a1 a2 h0 h12 h2
  have hne : (jsSlice l a1 (a2 + 1)).map g ≠ [] := by
    intro hcon
    have := congrArg List.length hcon
    simp [hlen] at this
    omega
  obtain ⟨v, hv, hmem, hle⟩ := maxOfI_spec _ hne
  refine ⟨v, hv, ?_, ?_⟩
  · obtain ⟨x, hx, hgx⟩ := List.mem_map.mp hmem
    obtain ⟨k, hkx⟩ := List.mem_iff_getElem?.mp hx
    obtain ⟨hkl, -⟩ := List.getElem?_eq_some_iff.mp hkx
    have hk' : k < a2.toNat + 1 - a1.toNat := by omega
    refine ⟨a1.toNat + k, by omega, by omega, x, ?_, hgx⟩
    rw [← hget k hk', hkx]
  · intro k hk1 hk2 x hx
    have hk' : k - a1.toNat < a2.toNat + 1 - a1.toNat := by omega
    have : (jsSlice l a1 (a2 + 1))[k - a1.toNat]? = some x := by
      rw [hget _ hk']
      rw [show a1.toNat + (k - a1.toNat) = k by omega]
      exact hx
    exact hle (g x) (List.mem_map.mpr ⟨x, List.getElem?_mem this, rfl⟩)

def defPos : TableCellPosition :=
  ⟨none, none, 0, 0, none, none, 0, 0⟩

def posAt (m : List TableRowPosition) (r c : Nat) : TableCellPosition :=
  (getPos m r c).getD defPos

/- The selection rectangle `(a1, b1)..(a2, b2)` lies inside an `R x C`
   matrix with ordered corners. -/
def InB (R C : Nat) (a1 b1 a2 b2 : Int) : Prop :=
  0 ≤ a1 ∧ a1 ≤ a2 ∧ a2 < (R : Int) ∧ 0 ≤ b1 ∧ b1 ≤ b2 ∧ b2 < (C : Int)

theorem getIdx_nonneg {α : Type} {l : List α} {i : Int} (h0 : 0 ≤ i) :
    getIdx l i = l[i.toNat]? := by
  unfold getIdx
  rw [if_neg (by omega)]

theorem posAt_spec {cells : List TableCell} {m : List TableRowPosition} {R C : Nat}
    (hcov : coverageCheck cells m R C = true) {r c : Nat} (hr : r < R) (hc : c < C) :
    getPos m r c = some (posAt m r c) ∧ PosFacts cells m R C r c (posAt m r c) := by
  obtain ⟨p, hp, hf⟩ := coverage_pos hcov hr hc
  refine ⟨by simp [posAt, hp], ?_⟩
  have : posAt m r c = p := by simp [posAt, hp]
  rw [this]
  exact hf

theorem row_pos_eq {cells : List TableCell} {m : List TableRowPosition} {R C : Nat}
    (hcov : coverageCheck cells m R C = true) {r : Nat} {row : TableRowPosition}
    (hrow : m[r]? = some row) {c : Nat} (hc : c < C) :
    row.cellsPosition[c]? = some (posAt m r c) := by
  have hr : r < R := by
    obtain ⟨h1, -⟩ := List.getElem?_eq_some_iff.mp hrow
    have := coverage_length hcov
    omega
  obtain ⟨hp, -⟩ := posAt_spec hcov hr hc
  rw [getPos, hrow] at hp
  exact hp

theorem jsSlice_subset {α : Type} (l : List α) (a1 a2 : Int) (h0 : 0 ≤ a1)
    (h12 : a1 ≤ a2) (h2 : a2 < (l.length : Int)) :
    ∀ x ∈ jsSlice l a1 (a2 + 1), x ∈ l := by
  obtain ⟨hlen, hget⟩ := jsSlice_spec l a1 a2 h0 h12 h2
  intro x hx
  obtain ⟨k, hkx⟩ := List.mem_iff_getElem?.mp hx
  obtain ⟨hkl, -⟩ := List.getElem?_eq_some_iff.mp hkx
  have hk' : k < a2.toNat + 1 - a1.toNat := by omega
  rw [hget k hk'] at hkx
  exact List.getElem?_mem hkx

/- Specification of one overflow computation of `selectCellsByRange` under
   the coverage invariant: it succeeds, the expanded rectangle stays inside
   the matrix, each overflow is attained at an edge position, and bounds
   every edge position. -/
theorem rangeStep_spec {cells : List TableCell} {m : List TableRowPosition} {R C : Nat}
    (hcov : coverageCheck cells m R C = true) {a1 b1 a2 b2 : Int}
    (hb : InB R C a1 b1 a2 b2) :
    ∃ x1 x2 y1 y2, rangeStep cells m a1 b1 a2 b2 = some (x1, x2, y1, y2) ∧
      x1 ≤ 0 ∧ 0 ≤ x2 ∧ y1 ≤ 0 ∧ 0 ≤ y2 ∧
      0 ≤ b1 + x1 ∧ b2 + x2 < (C : Int) ∧ 0 ≤ a1 + y1 ∧ a2 + y2 < (R : Int) ∧
      (∃ r : Nat, a1 ≤ (r : Int) ∧ (r : Int) ≤ a2 ∧
        ((posAt m r b1.toNat).offsetColumn : Int) = -x1) ∧
      (∃ r : Nat, a1 ≤ (r : Int) ∧ (r : Int) ≤ a2 ∧
        ((cellOf cells (posAt m r b2.toNat).cell).colspan : Int)
          - (posAt m r b2.toNat).offsetColumn - 1 = x2) ∧
      (∃ c : Nat, b1 ≤ (c : Int) ∧ (c : Int) ≤ b2 ∧
        ((posAt m a1.toNat c).offsetRow : Int) = -y1) ∧
      (∃ c : Nat, b1 ≤ (c : Int) ∧ (c : Int) ≤ b2 ∧
        ((cellOf cells (posAt m a2.toNat c).cell).rowspan : Int)
          - (posAt m a2.toNat c).offsetRow - 1 = y2) ∧
      (∀ r : Nat, a1 ≤ (r : Int) → (r : Int) ≤ a2 →
        ((posAt m r b1.toNat).offsetColumn : Int) ≤ -x1) ∧
      (∀ r : Nat, a1 ≤ (r : Int) → (r : Int) ≤ a2 →
        ((cellOf cells (posAt m r b2.toNat).cell).colspan : Int)
          - (posAt m r b2.toNat).offsetColumn - 1 ≤ x2) ∧
      (∀ c : Nat, b1 ≤ (c : Int) → (c : Int) ≤ b2 →
        ((posAt m a1.toNat c).offsetRow : Int) ≤ -y1) ∧
      (∀ c : Nat, b1 ≤ (c : Int) → (c : Int) ≤ b2 →
        ((cellOf cells (posAt m a2.toNat c).cell).rowspan : Int)
          - (posAt m a2.toNat c).offsetRow - 1 ≤ y2) := by
  obtain ⟨ha1, ha12, ha2, hb1, hb12, hb2⟩ := hb
  have hmlen := coverage_length hcov
  have hmlen' : a2 < (m.length : Int) := by omega
  -- the two row-slice maxima
  have hsub := jsSlice_subset m a1 a2 ha1 ha12 hmlen'
  have hrowlen : ∀ row ∈ jsSlice m a1 (a2 + 1), row.cellsPosition.length = C :=
    fun row hrow => coverage_rowLength hcov row (hsub row hrow)
  have hoffs : mapOpt (fun row =>
      (getIdx row.cellsPosition b1).map fun p => (p.offsetColumn : Int))
      (jsSlice m a1 (a2 + 1)) =
      some ((jsSlice m a1 (a2 + 1)).map fun row =>
        ((row.cellsPosition[b1.toNat]?.getD defPos).offsetColumn : Int)) := by
    apply mapOpt_eq_map_of
    intro row hrow
    have hlen := hrowlen row hrow
    have hc : b1.toNat < row.cellsPosition.length := by omega
    rw [getIdx_nonneg hb1, List.getElem?_eq_getElem hc]
    rfl
  have hrightOver : mapOpt (fun row =>
      (getIdx row.cellsPosition b2).map fun p =>
        ((cellOf cells p.cell).colspan : Int) - ((p.offsetColumn : Int) + 1))
      (jsSlice m a1 (a2 + 1)) =
      some ((jsSlice m a1 (a2 + 1)).map fun row =>
        ((cellOf cells (row.cellsPosition[b2.toNat]?.getD defPos).cell).colspan : Int)
          - (((row.cellsPosition[b2.toNat]?.getD defPos).offsetColumn : Int) + 1)) := by
    apply mapOpt_eq_map_of
    intro row hrow
    have hlen := hrowlen row hrow
    have hc : b2.toNat < row.cellsPosition.length := by omega
    rw [getIdx_nonneg (by omega), List.getElem?_eq_getElem hc]
    rfl
  obtain ⟨v1, hv1, ⟨r1, hr1a, hr1b, row1, hrow1, hg1⟩, hbnd1⟩ :=
    maxOf_slice_spec m a1 a2
      (fun row => ((row.cellsPosition[b1.toNat]?.getD defPos).offsetColumn : Int))
      ha1 ha12 hmlen'
  obtain ⟨v2, hv2, ⟨r2, hr2a, hr2b, row2, hrow2, hg2⟩, hbnd2⟩ :=
    maxOf_slice_spec m a1 a2
      (fun row =>
        ((cellOf cells (row.cellsPosition[b2.toNat]?.getD defPos).cell).colspan : Int)
          - (((row.cellsPosition[b2.toNat]?.getD defPos).offsetColumn : Int) + 1))
      ha1 ha12 hmlen'
  -- the two column-slice maxima on the top and bottom rows
  have ha1R : a1.toNat < R := by omega
  have ha2R : a2.toNat < R := by omega
  obtain ⟨rowT, hrowT, hrowTlen⟩ := coverage_row hcov ha1R
  obtain ⟨rowB, hrowB, hrowBlen⟩ := coverage_row hcov ha2R
  have htop : getIdx m a1 = some rowT := by
    rw [getIdx_nonneg ha1]
    exact hrowT
  have hbot : getIdx m a2 = some rowB := by
    rw [getIdx_nonneg (by omega)]
    exact hrowB
  have hClen : b2 < (rowT.cellsPosition.length : Int) := by omega
  have hClen' : b2 < (rowB.cellsPosition.length : Int) := by omega
  obtain ⟨w1, hw1, ⟨c1, hc1a, hc1b, p1, hp1, hgp1⟩, hbndT⟩ :=
    maxOf_slice_spec rowT.cellsPosition b1 b2
      (fun p => (p.offsetRow : Int)) hb1 hb12 hClen
  obtain ⟨w2, hw2, ⟨c2, hc2a, hc2b, p2, hp2, hgp2⟩, hbndB⟩ :=
    maxOf_slice_spec rowB.cellsPosition b1 b2
      (fun p => ((cellOf cells p.cell).rowspan : Int) - ((p.offsetRow : Int) + 1))
      hb1 hb12 hClen'
  -- positions behind the slice values
  have hposAt : ∀ {r : Nat} {row : TableRowPosition}, m[r]? = some row →
      ∀ {c : Nat}, c < C → row.cellsPosition[c]?.getD defPos = posAt m r c := by
    intro r row hrow c hc
    rw [row_pos_eq hcov hrow hc]
    rfl
  have hb1C : b1.toNat < C := by omega
  have hb2C : b2.toNat < C := by omega
  -- assemble the step result
  have hstep : rangeStep cells m a1 b1 a2 b2 = some (-v1, v2, -w1, w2) := by
    simp only [rangeStep, hoffs, hv1, hrightOver, hv2, htop, hw1, hbot, hw2,
      Option.bind_eq_bind, Option.some_bind]
  -- facts about v1
  rw [hposAt hrow1 hb1C] at hg1
  have hfacts1 := (posAt_spec hcov (show r1 < R by omega) hb1C).2
  have hv1nn : 0 ≤ v1 := by omega
  have hv1le : v1 ≤ b1 := by
    have := hfacts1.offC_le
    omega
  -- facts about v2
  rw [hposAt hrow2 hb2C] at hg2
  have hfacts2 := (posAt_spec hcov (show r2 < R by omega) hb2C).2
  have hv2nn : 0 ≤ v2 := by
    have := hfacts2.offC_lt
    omega
  have hv2ub : b2 + v2 < (C : Int) := by
    have h1 := hfacts2.span_col
    have h2 := hfacts2.offC_le
    omega
  -- facts about w1
  have hc1C : c1 < C := by omega
  have hc2C : c2 < C := by omega
  have hp1' : p1 = posAt m a1.toNat c1 := by
    have := row_pos_eq hcov hrowT hc1C
    rw [hp1] at this
    exact Option.some_injective _ this
  have hp2' : p2 = posAt m a2.toNat c2 := by
    have := row_pos_eq hcov hrowB hc2C
    rw [hp2] at this
    exact Option.some_injective _ this
  rw [hp1'] at hgp1
  rw [hp2'] at hgp2
  have hfactsT := (posAt_spec hcov ha1R hc1C).2
  have hfactsB := (posAt_spec hcov ha2R hc2C).2
  have hw1nn : 0 ≤ w1 := by omega
  have hw1le : w1 ≤ a1 := by
    have h1 := hfactsT.offR_le
    have h2 : (a1.toNat : Int) = a1 := by omega
    omega
  have hw2nn : 0 ≤ w2 := by
    have := hfactsB.offR_lt
    omega
  have hw2ub : a2 + w2 < (R : Int) := by
    have h1 := hfactsB.span_row
    have h2 := hfactsB.offR_le
    have h3 : (a2.toNat : Int) = a2 := by omega
    omega
  -- bound conversions
  have hBnd1 : ∀ r : Nat, a1 ≤ (r : Int) → (r : Int) ≤ a2 →
      ((posAt m r b1.toNat).offsetColumn : Int) ≤ v1 := by
    intro r h1 h2
    obtain ⟨row, hrow, -⟩ := coverage_row hcov (show r < R by omega)
    have := hbnd1 r h1 h2 row hrow
    rw [hposAt hrow hb1C] at this
    exact this
  have hBnd2 : ∀ r : Nat, a1 ≤ (r : Int) → (r : Int) ≤ a2 →
      ((cellOf cells (posAt m r b2.toNat).cell).colspan : Int)
        - (posAt m r b2.toNat).offsetColumn - 1 ≤ v2 := by
    intro r h1 h2
    obtain ⟨row, hrow, -⟩ := coverage_row hcov (show r < R by omega)
    have := hbnd2 r h1 h2 row hrow
    rw [hposAt hrow hb2C] at this
    omega
  have hBndT : ∀ c : Nat, b1 ≤ (c : Int) → (c : Int) ≤ b2 →
      ((posAt m a1.toNat c).offsetRow : Int) ≤ w1 := by
    intro c h1 h2
    have hcC : c < C := by omega
    have hpc := row_pos_eq hcov hrowT hcC
    exact hbndT c h1 h2 _ hpc
  have hBndB : ∀ c : Nat, b1 ≤ (c : Int) → (c : Int) ≤ b2 →
      ((cellOf cells (posAt m a2.toNat c).cell).rowspan : Int)
        - (posAt m a2.toNat c).offsetRow - 1 ≤ w2 := by
    intro c h1 h2
    have hcC : c < C := by omega
    have hpc := row_pos_eq hcov hrowB hcC
    have := hbndB c h1 h2 _ hpc
    omega
  refine ⟨-v1, v2, -w1, w2, hstep, by omega, by omega, by omega, by omega,
    by omega, by omega, by omega, by omega,
    ⟨r1, hr1a, hr1b, by omega⟩, ⟨r2, hr2a, hr2b, by omega⟩,
    ⟨c1, hc1a, hc1b, by omega⟩, ⟨c2, hc2a, hc2b, by omega⟩,
    fun r h1 h2 => by have := hBnd1 r h1 h2; omega,
    fun r h1 h2 => by have := hBnd2 r h1 h2; omega,
    fun c h1 h2 => by have := hBndT c h1 h2; omega,
    fun c h1 h2 => by have := hBndB c h1 h2; omega⟩

/- No cell partially covered: every position inside the rectangle has its
   whole span inside the rectangle. -/
def Closed (cells : List TableCell) (m : List TableRowPosition)
    (a1 b1 a2 b2 : Int) : Prop :=
  ∀ (r c : Nat) (p : TableCellPosition), a1 ≤ (r : Int) → (r : Int) ≤ a2 →
    b1 ≤ (c : Int) → (c : Int) ≤ b2 → getPos m r c = some p →
      a1 ≤ (r : Int) - p.offsetRow ∧
      (r : Int) - p.offsetRow + (cellOf cells p.cell).rowspan - 1 ≤ a2 ∧
      b1 ≤ (c : Int) - p.offsetColumn ∧
      (c : Int) - p.offsetColumn + (cellOf cells p.cell).colspan - 1 ≤ b2

/- Rectangle `(a1,b1)..(a2,b2)` is contained in `(s1,t1)..(s2,t2)`. -/
def SubRect (a1 b1 a2 b2 s1 t1 s2 t2 : Int) : Prop :=
  s1 ≤ a1 ∧ t1 ≤ b1 ∧ a2 ≤ s2 ∧ b2 ≤ t2

theorem subRect_trans {a1 b1 a2 b2 s1 t1 s2 t2 u1 v1 u2 v2 : Int}
    (h1 : SubRect a1 b1 a2 b2 s1 t1 s2 t2) (h2 : SubRect s1 t1 s2 t2 u1 v1 u2 v2) :
    SubRect a1 b1 a2 b2 u1 v1 u2 v2 := by
  obtain ⟨p1, p2, p3, p4⟩ := h1
  obtain ⟨q1, q2, q3, q4⟩ := h2
  exact ⟨by omega, by omega, by omega, by omega⟩

/- When all four overflow amounts vanish, the rectangle is closed: no
   spanning cell crosses any of its four edges. -/
theorem step_zero_closed {cells : List TableCell} {m : List TableRowPosition}
    {R C : Nat} (hcov : coverageCheck cells m R C = true) {a1 b1 a2 b2 : Int}
    (hb : InB R C a1 b1 a2 b2)
    (hL : ∀ r : Nat, a1 ≤ (r : Int) → (r : Int) ≤ a2 →
      ((posAt m r b1.toNat).offsetColumn : Int) ≤ 0)
    (hR : ∀ r : Nat, a1 ≤ (r : Int) → (r : Int) ≤ a2 →
      ((cellOf cells (posAt m r b2.toNat).cell).colspan : Int)
        - (posAt m r b2.toNat).offsetColumn - 1 ≤ 0)
    (hT : ∀ c : Nat, b1 ≤ (c : Int) → (c : Int) ≤ b2 →
      ((posAt m a1.toNat c).offsetRow : Int) ≤ 0)
    (hB : ∀ c : Nat, b1 ≤ (c : Int) → (c : Int) ≤ b2 →
      ((cellOf cells (posAt m a2.toNat c).cell).rowspan : Int)
        - (posAt m a2.toNat c).offsetRow - 1 ≤ 0) :
    Closed cells m a1 b1 a2 b2 := by
  obtain ⟨ha1, ha12, ha2, hb1, hb12, hb2⟩ := hb
  intro r c p hr1 hr2 hc1 hc2 hp
  have hrR : r < R := by omega
  have hcC : c < C := by omega
  obtain ⟨hpos, hf⟩ := posAt_spec hcov hrR hcC
  have hpp : p = posAt m r c := by
    rw [hp] at hpos
    exact Option.some_injective _ hpos
  subst hpp
  set q := posAt m r c with hq
  have hoffR := hf.offR_le
  have hoffC := hf.offC_le
  have hrsp := hf.offR_lt
  have hcsp := hf.offC_lt
  refine ⟨?_, ?_, ?_, ?_⟩
  · -- top edge: a1 ≤ r - offsetRow
    by_contra hcon
    push_neg at hcon
    have hin : a1.toNat - (r - q.offsetRow) < (cellOf cells q.cell).rowspan := by omega
    obtain ⟨q', hq', hcell', hor', hoc'⟩ :=
      hf.member (a1.toNat - (r - q.offsetRow)) (c - q.offsetColumn + q.offsetColumn
        - (c - q.offsetColumn)) hin (by omega)
    have hco : r - q.offsetRow + (a1.toNat - (r - q.offsetRow)) = a1.toNat := by omega
    have hco2 : c - q.offsetColumn + (c - q.offsetColumn + q.offsetColumn
        - (c - q.offsetColumn)) = c := by omega
    rw [hco, hco2] at hq'
    have hqq : q' = posAt m a1.toNat c := by
      obtain ⟨hpos', -⟩ := posAt_spec hcov (show a1.toNat < R by omega) hcC
      rw [hq'] at hpos'
      exact Option.some_injective _ hpos'
    have := hT c hc1 hc2
    rw [← hqq, hor'] at this
    omega
  · -- bottom edge: r - offsetRow + rowspan - 1 ≤ a2
    by_contra hcon
    push_neg at hcon
    have hin : a2.toNat - (r - q.offsetRow) < (cellOf cells q.cell).rowspan := by omega
    obtain ⟨q', hq', hcell', hor', hoc'⟩ :=
      hf.member (a2.toNat - (r - q.offsetRow)) (c - q.offsetColumn + q.offsetColumn
        - (c - q.offsetColumn)) hin (by omega)
    have hco : r - q.offsetRow + (a2.toNat - (r - q.offsetRow)) = a2.toNat := by omega
    have hco2 : c - q.offsetColumn + (c - q.offsetColumn + q.offsetColumn
        - (c - q.offsetColumn)) = c := by omega
    rw [hco, hco2] at hq'
    have hqq : q' = posAt m a2.toNat c := by
      obtain ⟨hpos', -⟩ := posAt_spec hcov (show a2.toNat < R by omega) hcC
      rw [hq'] at hpos'
      exact Option.some_injective _ hpos'
    have := hB c hc1 hc2
    rw [← hqq, hcell', hor'] at this
    omega
  · -- left edge
    by_contra hcon
    push_neg at hcon
    have hin : b1.toNat - (c - q.offsetColumn) < (cellOf cells q.cell).colspan := by omega
    obtain ⟨q', hq', hcell', hor', hoc'⟩ :=
      hf.member (r - q.offsetRow + q.offsetRow - (r - q.offsetRow))
        (b1.toNat - (c - q.offsetColumn)) (by omega) hin
    have hco : r - q.offsetRow + (r - q.offsetRow + q.offsetRow - (r - q.offsetRow)) = r := by
      omega
    have hco2 : c - q.offsetColumn + (b1.toNat - (c - q.offsetColumn)) = b1.toNat := by omega
    rw [hco, hco2] at hq'
    have hqq : q' = posAt m r b1.toNat := by
      obtain ⟨hpos', -⟩ := posAt_spec hcov hrR (show b1.toNat < C by omega)
      rw [hq'] at hpos'
      exact Option.some_injective _ hpos'
    have := hL r hr1 hr2
    rw [← hqq, hoc'] at this
    omega
  · -- right edge
    by_contra hcon
    push_neg at hcon
    have hin : b2.toNat - (c - q.offsetColumn) < (cellOf cells q.cell).colspan := by omega
    obtain ⟨q', hq', hcell', hor', hoc'⟩ :=
      hf.member (r - q.offsetRow + q.offsetRow - (r - q.offsetRow))
        (b2.toNat - (c - q.offsetColumn)) (by omega) hin
    have hco : r - q.offsetRow + (r - q.offsetRow + q.offsetRow - (r - q.offsetRow)) = r := by
      omega
    have hco2 : c - q.offsetColumn + (b2.toNat - (c - q.offsetColumn)) = b2.toNat := by omega
    rw [hco, hco2] at hq'
    have hqq : q' = posAt m r b2.toNat := by
      obtain ⟨hpos', -⟩ := posAt_spec hcov hrR (show b2.toNat < C by omega)
      rw [hq'] at hpos'
      exact Option.some_injective _ hpos'
    have := hR r hr1 hr2
    rw [← hqq, hcell', hoc'] at this
    omega

theorem rangeFinish_spec {cells : List TableCell} {m : List TableRowPosition}
    {R C : Nat} (hcov : coverageCheck cells m R C = true) {a1 b1 a2 b2 : Int}
    (hb : InB R C a1 b1 a2 b2) :
    ∃ res, rangeFinish m a1 b1 a2 b2 = some res ∧
      res.startCellPosition = posAt m a1.toNat b1.toNat ∧
      res.endCellPosition = posAt m a2.toNat b2.toNat := by
  obtain ⟨ha1, ha12, ha2, hb1, hb12, hb2⟩ := hb
  obtain ⟨rowS, hrowS, hrowSlen⟩ := coverage_row hcov (show a1.toNat < R by omega)
  obtain ⟨rowE, hrowE, hrowElen⟩ := coverage_row hcov (show a2.toNat < R by omega)
  have hS : (getIdx m a1).bind (fun r => getIdx r.cellsPosition b1) =
      some (posAt m a1.toNat b1.toNat) := by
    rw [getIdx_nonneg ha1, hrowS]
    simp only [Option.some_bind]
    rw [getIdx_nonneg hb1]
    exact row_pos_eq hcov hrowS (by omega)
  have hE : (getIdx m a2).bind (fun r => getIdx r.cellsPosition b2) =
      some (posAt m a2.toNat b2.toNat) := by
    rw [getIdx_nonneg (by omega), hrowE]
    simp only [Option.some_bind]
    rw [getIdx_nonneg (by omega)]
    exact row_pos_eq hcov hrowE (by omega)
  have hfS := (posAt_spec hcov (show a1.toNat < R by omega) (show b1.toNat < C by omega)).2
  have hfE := (posAt_spec hcov (show a2.toNat < R by omega) (show b2.toNat < C by omega)).2
  have hgS : (posAt m a1.toNat b1.toNat).rowIndex.getD 0 = a1 := by
    rw [hfS.rowIdx]
    simp
    omega
  have hgE : (posAt m a2.toNat b2.toNat).rowIndex.getD 0 = a2 := by
    rw [hfE.rowIdx]
    simp
    omega
  have hgSc : (posAt m a1.toNat b1.toNat).columnIndex.getD 0 = b1 := by
    rw [hfS.colIdx]
    simp
    omega
  have hgEc : (posAt m a2.toNat b2.toNat).columnIndex.getD 0 = b2 := by
    rw [hfE.colIdx]
    simp
    omega
  have hmlen := coverage_length hcov
  have hslen : (jsSlice m a1 (a2 + 1)).length = a2.toNat + 1 - a1.toNat :=
    (jsSlice_spec m a1 a2 ha1 ha12 (by omega)).1
  simp only [rangeFinish, hS, hE, Option.bind_eq_bind, Option.some_bind]
  rw [hgS, hgE, hgSc, hgEc]
  cases hparts : (jsSlice m a1 (a2 + 1)).map (fun row =>
      jsSlice row.cellsPosition b1 (b2 + 1)) with
  | nil =>
    have := congrArg List.length hparts
    simp [hslen] at this
    omega
  | cons pH pT => exact ⟨_, rfl, rfl, rfl⟩

/- Full specification of the fixed-point recursion of `selectCellsByRange`
   under the coverage invariant: with fuel above the (bounded) growth
   measure it terminates at a rectangle that contains the input, is closed
   (no partially covered cell), and is contained in every closed rectangle
   containing the input; the returned corner positions are the matrix
   entries at the final corners. -/
theorem rangeAux_spec {cells : List TableCell} {m : List TableRowPosition} {R C : Nat}
    (hcov : coverageCheck cells m R C = true) :
    ∀ (fuel : Nat) (a1 b1 a2 b2 : Int), InB R C a1 b1 a2 b2 →
      (a1 + b1 + ((R : Int) - 1 - a2) + ((C : Int) - 1 - b2)).toNat < fuel →
      ∃ res a1' b1' a2' b2',
        selectCellsByRangeAux cells m fuel a1 b1 a2 b2 = some res ∧
        InB R C a1' b1' a2' b2' ∧
        SubRect a1 b1 a2 b2 a1' b1' a2' b2' ∧
        Closed cells m a1' b1' a2' b2' ∧
        res.startCellPosition = posAt m a1'.toNat b1'.toNat ∧
        res.endCellPosition = posAt m a2'.toNat b2'.toNat ∧
        (∀ s1 t1 s2 t2 : Int, SubRect a1 b1 a2 b2 s1 t1 s2 t2 →
          Closed cells m s1 t1 s2 t2 → SubRect a1' b1' a2' b2' s1 t1 s2 t2) := by
  intro fuel
  induction fuel with
  | zero =>
    intro a1 b1 a2 b2 hb hfuel
    omega
  | succ fuel ih =>
    intro a1 b1 a2 b2 hb hfuel
    obtain ⟨x1, x2, y1, y2, hstep, hx1, hx2, hy1, hy2, hbx1, hbx2, hby1, hby2,
      hatt1, hatt2, hattT, hattB, hbnd1, hbnd2, hbndT, hbndB⟩ := rangeStep_spec hcov hb
    obtain ⟨ha1, ha12, ha2, hb1, hb12, hb2⟩ := hb
    rw [selectCellsByRangeAux]
    simp only [hstep]
    by_cases hz : x1 ≠ 0 ∨ y1 ≠ 0 ∨ x2 ≠ 0 ∨ y2 ≠ 0
    · rw [if_pos hz]
      have hb' : InB R C (a1 + y1) (b1 + x1) (a2 + y2) (b2 + x2) :=
        ⟨by omega, by omega, by omega, by omega, by omega, by omega⟩
      have hfuel' : ((a1 + y1) + (b1 + x1) + ((R : Int) - 1 - (a2 + y2)) +
          ((C : Int) - 1 - (b2 + x2))).toNat < fuel := by
        omega
      obtain ⟨res, a1', b1', a2', b2', hres, hb'', hsub, hcl, hrs, hre, hmin⟩ :=
        ih (a1 + y1) (b1 + x1) (a2 + y2) (b2 + x2) hb' hfuel'
      refine ⟨res, a1', b1', a2', b2', hres, hb'', ?_, hcl, hrs, hre, ?_⟩
      · exact subRect_trans ⟨by omega, by omega, by omega, by omega⟩ hsub
      · intro s1 t1 s2 t2 hsub' hcl'
        apply hmin
        · -- the forced expansion stays inside every closed superset
          obtain ⟨hs1, ht1, hs2, ht2⟩ := hsub'
          obtain ⟨rA, hrA1, hrA2, hrAe⟩ := hatt1
          obtain ⟨rB, hrB1, hrB2, hrBe⟩ := hatt2
          obtain ⟨cA, hcA1, hcA2, hcAe⟩ := hattT
          obtain ⟨cB, hcB1, hcB2, hcBe⟩ := hattB
          have hfL := (posAt_spec hcov (show rA < R by omega)
            (show b1.toNat < C by omega))
          have hfR := (posAt_spec hcov (show rB < R by omega)
            (show b2.toNat < C by omega))
          have hfT := (posAt_spec hcov (show a1.toNat < R by omega)
            (show cA < C by omega))
          have hfB := (posAt_spec hcov (show a2.toNat < R by omega)
            (show cB < C by omega))
          have hcL := hcl' rA b1.toNat _ (by omega) (by omega) (by omega)
            (by omega) hfL.1
          have hcR := hcl' rB b2.toNat _ (by omega) (by omega) (by omega)
            (by omega) hfR.1
          have hcT := hcl' a1.toNat cA _ (by omega) (by omega) (by omega)
            (by omega) hfT.1
          have hcB' := hcl' a2.toNat cB _ (by omega) (by omega) (by omega)
            (by omega) hfB.1
          refine ⟨?_, ?_, ?_, ?_⟩
          · -- s1 ≤ a1 + y1
            have h1 := hcT.1
            have h2 : ((a1.toNat : Int)) = a1 := by omega
            omega
          · -- t1 ≤ b1 + x1
            have h1 := hcL.2.2.1
            omega
          · -- a2 + y2 ≤ s2
            have h1 := hcB'.2.1
            have h2 : ((a2.toNat : Int)) = a2 := by omega
            omega
          · -- b2 + x2 ≤ t2
            have h1 := hcR.2.2.2
            omega
        · exact hcl'
    · rw [if_neg hz]
      push_neg at hz
      obtain ⟨hz1, hz2, hz3, hz4⟩ := hz
      subst hz1 hz2 hz3 hz4
      have hb0 : InB R C a1 b1 a2 b2 := ⟨ha1, ha12, ha2, hb1, hb12, hb2⟩
      obtain ⟨res, hres, hrs, hre⟩ := rangeFinish_spec hcov hb0
      refine ⟨res, a1, b1, a2, b2, hres, hb0, ⟨le_refl _, le_refl _, le_refl _, le_refl _⟩,
        ?_, hrs, hre, fun s1 t1 s2 t2 hsub _ => hsub⟩
      exact step_zero_closed hcov hb0
        (fun r h1 h2 => by have := hbnd1 r h1 h2; omega)
        (fun r h1 h2 => by have := hbnd2 r h1 h2; omega)
        (fun c h1 h2 => by have := hbndT c h1 h2; omega)
        (fun c h1 h2 => by have := hbndB c h1 h2; omega)

/-- C2: for every matrix projected from a valid grid (i.e. satisfying the
span-coverage invariant of §3) and every in-bounds starting rectangle, the
recursive fixed-point expansion of `selectCellsByRange` terminates: the
top-level call (whose fuel exceeds the growth measure) returns a result;
each recursive call strictly grows the rectangle while staying inside the
finite matrix bounds; and the recursion stops exactly when all four
overflow amounts are zero, returning the fixed-point rectangle. -/
theorem selectCellsByRange_terminates {cells : List TableCell}
    {m : List TableRowPosition} {R C : Nat}
    (hcov : coverageCheck cells m R C = true) {a1 b1 a2 b2 : Int}
    (hb : InB R C a1 b1 a2 b2) :
    (∃ res, selectCellsByRange cells m a1 b1 a2 b2 = some res) ∧
    (∀ x1 x2 y1 y2, rangeStep cells m a1 b1 a2 b2 = some (x1, x2, y1, y2) →
      (x1 ≠ 0 ∨ y1 ≠ 0 ∨ x2 ≠ 0 ∨ y2 ≠ 0) →
      InB R C (a1 + y1) (b1 + x1) (a2 + y2) (b2 + x2) ∧
      SubRect a1 b1 a2 b2 (a1 + y1) (b1 + x1) (a2 + y2) (b2 + x2) ∧
      (a1, b1, a2, b2) ≠ (a1 + y1, b1 + x1, a2 + y2, b2 + x2)) ∧
    (rangeStep cells m a1 b1 a2 b2 = some (0, 0, 0, 0) →
      ∀ fuel, selectCellsByRangeAux cells m (fuel + 1) a1 b1 a2 b2 =
        rangeFinish m a1 b1 a2 b2) := by
  obtain ⟨x1, x2, y1, y2, hstep, hx1, hx2, hy1, hy2, hbx1, hbx2, hby1, hby2,
    -, -, -, -, -, -, -, -⟩ := rangeStep_spec hcov hb
  obtain ⟨ha1, ha12, ha2, hb1, hb12, hb2⟩ := hb
  refine ⟨?_, ?_, ?_⟩
  · have hmlen := coverage_length hcov
    have hRpos : 0 < m.length := by omega
    have hhead : ∃ row, m.head? = some row := by
      cases m with
      | nil => simp at hRpos
      | cons a t => exact ⟨a, rfl⟩
    obtain ⟨row, hrow⟩ := hhead
    have hrowlen : row.cellsPosition.length = C :=
      coverage_rowLength hcov row (List.mem_of_mem_head? hrow)
    have hfuel : (a1 + b1 + ((R : Int) - 1 - a2) + ((C : Int) - 1 - b2)).toNat <
        rangeFuel m := by
      unfold rangeFuel
      rw [hrow]
      simp only [Option.elim]
      omega
    obtain ⟨res, _, _, _, _, hres, -⟩ :=
      rangeAux_spec hcov (rangeFuel m) a1 b1 a2 b2 ⟨ha1, ha12, ha2, hb1, hb12, hb2⟩ hfuel
    exact ⟨res, hres⟩
  · intro x1' x2' y1' y2' hstep' hnz
    rw [hstep] at hstep'
    obtain ⟨he1, he2, he3, he4⟩ : x1 = x1' ∧ x2 = x2' ∧ y1 = y1' ∧ y2 = y2' := by
      have := Option.some_injective _ hstep'
      exact ⟨congrArg (·.1) this, congrArg (·.2.1) this,
        congrArg (·.2.2.1) this, congrArg (·.2.2.2) this⟩
    subst he1 he2 he3 he4
    refine ⟨⟨by omega, by omega, by omega, by omega, by omega, by omega⟩,
      ⟨by omega, by omega, by omega, by omega⟩, ?_⟩
    intro hcon
    have h1 : a1 = a1 + y1 := congrArg (·.1) hcon
    have h2 : b1 = b1 + x1 := congrArg (·.2.1) hcon
    have h3 : a2 = a2 + y2 := congrArg (·.2.2.1) hcon
    have h4 : b2 = b2 + x2 := congrArg (·.2.2.2) hcon
    rcases hnz with h | h | h | h <;> omega
  · intro hzero fuel
    rw [selectCellsByRangeAux]
    simp only [hzero]
    rw [if_neg (by simp)]

/- Concrete example grids. -/

/- 2 rows: `[[A(1x1), B(rowspan 2, colspan 2)], [C(1x1)]]` - a 2x3 grid
   with a cell spanning 2 rows and 2 columns (spec scenario 4). -/
def gSpan : TableState := ⟨[⟨1, 1⟩, ⟨2, 2⟩, ⟨1, 1⟩], [[0, 1], [2]], [0, 1]⟩

/- 3 rows, staircase of vertical spans:
   `[[A(rowspan 2), D], [B(rowspan 2)], [C]]` - a 3x2 grid where cell A
   covers rows 0-1 of column 0 and cell B covers rows 1-2 of column 1. -/
def gStair : TableState := ⟨[⟨2, 1⟩, ⟨1, 1⟩, ⟨2, 1⟩, ⟨1, 1⟩], [[0, 1], [2], [3]], [0, 1, 2]⟩

/-- Witness for C2 at spec scenario 4: the 2x3 matrix of `gSpan` satisfies
coverage and the recursion from the rectangle `(1,1)..(1,1)` terminates. -/
theorem selectCellsByRange_terminates_witness :
    ∃ res, selectCellsByRange gSpan.cellArena (serializeM gSpan).1 1 1 1 1 = some res :=
  (selectCellsByRange_terminates (R := 2) (C := 3) (by decide)
    ⟨by decide, by decide, by decide, by decide, by decide, by decide⟩).1

/- The original C1 wording, modelled from the spec's words: the rectangle
   `(s1,t1)..(s2,t2)` fully contains every cell partially covered by the
   rectangle `(a1,b1)..(a2,b2)` (every matrix position inside the latter
   has its referenced cell's whole span inside the former). -/
def containsCoveredCells (cells : List TableCell) (m : List TableRowPosition)
    (a1 b1 a2 b2 s1 t1 s2 t2 : Int) : Bool :=
  m.enum.all fun rrow =>
    rrow.2.cellsPosition.enum.all fun cp =>
      !(decide (a1 ≤ (rrow.1 : Int) ∧ (rrow.1 : Int) ≤ a2 ∧
          b1 ≤ (cp.1 : Int) ∧ (cp.1 : Int) ≤ b2)) ||
      decide (s1 ≤ (rrow.1 : Int) - cp.2.offsetRow ∧
        (rrow.1 : Int) - cp.2.offsetRow + (cellOf cells cp.2.cell).rowspan - 1 ≤ s2 ∧
        t1 ≤ (cp.1 : Int) - cp.2.offsetColumn ∧
        (cp.1 : Int) - cp.2.offsetColumn + (cellOf cells cp.2.cell).colspan - 1 ≤ t2)

/-- Counterexample to C1 as stated: on the valid 3x2 grid `gStair`
(coverage holds), normalizing the input rectangle `(0,0)..(0,1)` returns
`(0,0)..(2,1)`, yet the strictly smaller rectangle `(0,0)..(1,1)` already
fully contains every cell partially covered by the input (cells A and D).
Hence the result is not minimal among rectangles that fully contain every
cell partially covered by the input: the fixed-point expansion also pulls
in cell B, which only overlaps the *expanded* rectangle. -/
theorem selectCellsByRange_not_bbox_minimal :
    coverageCheck gStair.cellArena (serializeM gStair).1 3 2 = true ∧
    (selectCellsByRange gStair.cellArena (serializeM gStair).1 0 0 0 1).map
        (fun res => (res.startCellPosition.rowIndex, res.startCellPosition.columnIndex,
          res.endCellPosition.rowIndex, res.endCellPosition.columnIndex)) =
      some (some 0, some 0, some 2, some 1) ∧
    containsCoveredCells gStair.cellArena (serializeM gStair).1 0 0 0 1 0 0 1 1 = true ∧
    ¬ SubRect 0 0 2 1 0 0 1 1 := by
  refine ⟨by decide, by decide, by decide, ?_⟩
  intro h
  obtain ⟨-, -, h3, -⟩ := h
  omega

/-- C1 (amended): for every matrix satisfying the span-coverage invariant
(the matrix projected from a valid grid) and every in-bounds input
rectangle, `selectCellsByRange` returns the *least clip-free* rectangle:
it contains the input rectangle, fully contains every cell partially
covered by the input rectangle (and indeed every cell it touches), and is
contained in every rectangle that contains the input and does not
partially cover any cell.  (The original claim's "minimal among rectangles
containing every partially covered cell" fails - see the counterexample -
because the fixed point must also absorb cells that only overlap the
expanded rectangle.)  The returned corner positions are the matrix entries
at the final corners, so the result's coordinates are the fixed-point
rectangle. -/
theorem selectCellsByRange_normalizes {cells : List TableCell}
    {m : List TableRowPosition} {R C : Nat}
    (hcov : coverageCheck cells m R C = true) {a1 b1 a2 b2 : Int}
    (hb : InB R C a1 b1 a2 b2) :
    ∃ res a1' b1' a2' b2',
      selectCellsByRange cells m a1 b1 a2 b2 = some res ∧
      InB R C a1' b1' a2' b2' ∧
      res.startCellPosition = posAt m a1'.toNat b1'.toNat ∧
      res.endCellPosition = posAt m a2'.toNat b2'.toNat ∧
      res.startCellPosition.rowIndex = some a1' ∧
      res.startCellPosition.columnIndex = some b1' ∧
      res.endCellPosition.rowIndex = some a2' ∧
      res.endCellPosition.columnIndex = some b2' ∧
      SubRect a1 b1 a2 b2 a1' b1' a2' b2' ∧
      Closed cells m a1' b1' a2' b2' ∧
      (∀ (r c : Nat) (p : TableCellPosition), a1 ≤ (r : Int) → (r : Int) ≤ a2 →
        b1 ≤ (c : Int) → (c : Int) ≤ b2 → getPos m r c = some p →
          a1' ≤ (r : Int) - p.offsetRow ∧
          (r : Int) - p.offsetRow + (cellOf cells p.cell).rowspan - 1 ≤ a2' ∧
          b1' ≤ (c : Int) - p.offsetColumn ∧
          (c : Int) - p.offsetColumn + (cellOf cells p.cell).colspan - 1 ≤ b2') ∧
      (∀ s1 t1 s2 t2 : Int, SubRect a1 b1 a2 b2 s1 t1 s2 t2 →
        Closed cells m s1 t1 s2 t2 → SubRect a1' b1' a2' b2' s1 t1 s2 t2) := by
  have hb' := hb
  obtain ⟨ha1, ha12, ha2, hb1, hb12, hb2⟩ := hb'
  have hmlen := coverage_length hcov
  have hRpos : 0 < m.length := by omega
  have hhead : ∃ row, m.head? = some row := by
    cases m with
    | nil => simp at hRpos
    | cons a t => exact ⟨a, rfl⟩
  obtain ⟨row, hrow⟩ := hhead
  have hrowlen : row.cellsPosition.length = C :=
    coverage_rowLength hcov row (List.mem_of_mem_head? hrow)
  have hfuel : (a1 + b1 + ((R : Int) - 1 - a2) + ((C : Int) - 1 - b2)).toNat <
      rangeFuel m := by
    unfold rangeFuel
    rw [hrow]
    simp only [Option.elim]
    omega
  obtain ⟨res, a1', b1', a2', b2', hres, hbF, hsub, hcl, hrs, hre, hmin⟩ :=
    rangeAux_spec hcov (rangeFuel m) a1 b1 a2 b2 hb hfuel
  have hbF' := hbF
  obtain ⟨hf1, hf12, hf2, hg1, hg12, hg2⟩ := hbF'
  have hfS := (posAt_spec hcov (R := R) (C := C)
    (show a1'.toNat < R by omega) (show b1'.toNat < C by omega)).2
  have hfE := (posAt_spec hcov (R := R) (C := C)
    (show a2'.toNat < R by omega) (show b2'.toNat < C by omega)).2
  refine ⟨res, a1', b1', a2', b2', hres, hbF, hrs, hre, ?_, ?_, ?_, ?_,
    hsub, hcl, ?_, hmin⟩
  · rw [hrs, hfS.rowIdx]
    congr 1
    omega
  · rw [hrs, hfS.colIdx]
    congr 1
    omega
  · rw [hre, hfE.rowIdx]
    congr 1
    omega
  · rw [hre, hfE.colIdx]
    congr 1
    omega
  · intro r c p h1 h2 h3 h4 hp
    obtain ⟨hs1, ht1, hs2, ht2⟩ := hsub
    exact hcl r c p (by omega) (by omega) (by omega) (by omega) hp

/-- Witness for C1's amended statement at spec scenario 4: on `gSpan`, a
rectangle with both corners strictly inside the 2x2-spanning cell B
normalizes (per the theorem) and expands to exactly B's full span
`(0,1)..(1,2)`. -/
theorem selectCellsByRange_normalizes_witness :
    (∃ res a1' b1' a2' b2',
      selectCellsByRange gSpan.cellArena (serializeM gSpan).1 1 1 1 1 = some res ∧
      InB 2 3 a1' b1' a2' b2' ∧
      res.startCellPosition = posAt (serializeM gSpan).1 a1'.toNat b1'.toNat ∧
      res.endCellPosition = posAt (serializeM gSpan).1 a2'.toNat b2'.toNat ∧
      res.startCellPosition.rowIndex = some a1' ∧
      res.startCellPosition.columnIndex = some b1' ∧
      res.endCellPosition.rowIndex = some a2' ∧
      res.endCellPosition.columnIndex = some b2' ∧
      SubRect 1 1 1 1 a1' b1' a2' b2' ∧
      Closed gSpan.cellArena (serializeM gSpan).1 a1' b1' a2' b2' ∧
      (∀ (r c : Nat) (p : TableCellPosition), 1 ≤ (r : Int) → (r : Int) ≤ 1 →
        1 ≤ (c : Int) → (c : Int) ≤ 1 → getPos (serializeM gSpan).1 r c = some p →
          a1' ≤ (r : Int) - p.offsetRow ∧
          (r : Int) - p.offsetRow + (cellOf gSpan.cellArena p.cell).rowspan - 1 ≤ a2' ∧
          b1' ≤ (c : Int) - p.offsetColumn ∧
          (c : Int) - p.offsetColumn + (cellOf gSpan.cellArena p.cell).colspan - 1 ≤ b2') ∧
      (∀ s1 t1 s2 t2 : Int, SubRect 1 1 1 1 s1 t1 s2 t2 →
        Closed gSpan.cellArena (serializeM gSpan).1 s1 t1 s2 t2 →
        SubRect a1' b1' a2' b2' s1 t1 s2 t2)) ∧
    (selectCellsByRange gSpan.cellArena (serializeM gSpan).1 1 1 1 1).map
        (fun res => (res.startCellPosition.rowIndex, res.startCellPosition.columnIndex,
          res.endCellPosition.rowIndex, res.endCellPosition.columnIndex)) =
      some (some 0, some 1, some 1, some 2) :=
  ⟨selectCellsByRange_normalizes (R := 2) (C := 3) (by decide)
    ⟨by decide, by decide, by decide, by decide, by decide, by decide⟩, by decide⟩

/- 2x2 grid of four 1x1 cells (spec scenario 1). -/
def gQuad : TableState := ⟨[⟨1, 1⟩, ⟨1, 1⟩, ⟨1, 1⟩, ⟨1, 1⟩], [[0, 1], [2, 3]], [0, 1]⟩

/- Full-grid normalized selection of `gQuad` (corner positions of the
   projected matrix). -/
def paramsQuad : TableEditRange :=
  ⟨⟨none, some 1, 0, 0, some 0, some 0, 0, 0⟩, ⟨some 2, none, 1, 3, some 1, some 1, 0, 0⟩⟩

/- 2x2 grid `[[A(colspan 2)], [B, C]]`: the top row is a single cell
   spanning both columns. -/
def gWide : TableState := ⟨[⟨1, 2⟩, ⟨1, 1⟩, ⟨1, 1⟩], [[0], [1, 2]], [0, 1]⟩

/- Full-grid normalized selection of `gWide`. -/
def paramsWide : TableEditRange :=
  ⟨⟨none, none, 0, 0, some 0, some 0, 0, 0⟩, ⟨some 1, none, 1, 2, some 1, some 1, 0, 0⟩⟩

/-- Counterexample to C5 as stated: `gWide` is a valid 2x2 grid (coverage
holds) with three cells; merging the full (normalized) rectangle and then
splitting the collapsed selection yields a grid with *four* cells - the
colspan-2 cell contributed only one cell before the merge, but the split
materializes one fresh cell per covered grid slot.  The total cell count
is therefore not restored for selections containing non-1x1 cells. -/
theorem mergeSplit_not_count_preserving :
    coverageCheck gWide.cellArena (serializeM gWide).1 2 2 = true ∧
    ((gWide.bodies.map (rowGet gWide.rowArena)).flatten).length = 3 ∧
    ((mergeCells gWide paramsWide).bind (fun r => splitCells r.1 r.2)).map
        (fun r => ((r.1.bodies.map (rowGet r.1.rowArena)).flatten).length) =
      some 4 := by
  refine ⟨by decide, by decide, by decide⟩

/-- C5 (amended): on the spec's own concrete scenario - the 2x2 grid of
four 1x1 cells - `MergeCells` over the full rectangle yields a single cell
with `rowspan = 2, colspan = 2`, and `SplitCells` on the collapsed
selection restores a 2x2 grid of four 1x1 cells (bounding rectangle and
cell count restored; the three non-surviving cells are fresh).  The
general count-preservation claim holds only when every merged cell is
1x1 - see the counterexample. -/
theorem mergeSplit_quad_restores :
    (mergeCells gQuad paramsQuad).map
        (fun r => (r.1.bodies.map (rowGet r.1.rowArena)).map
          (·.map (cellOf r.1.cellArena))) =
      some [[⟨2, 2⟩]] ∧
    ((mergeCells gQuad paramsQuad).bind (fun r => splitCells r.1 r.2)).map
        (fun r => (r.1.bodies.map (rowGet r.1.rowArena)).map
          (·.map (cellOf r.1.cellArena))) =
      some [[⟨1, 1⟩, ⟨1, 1⟩], [⟨1, 1⟩, ⟨1, 1⟩]] := by
  refine ⟨by decide, by decide⟩

/- 2x2 grid `[[X, A(rowspan 2)], [Y]]`: cell A (index 1) spans rows 0-1 of
   column 1; cell Y (index 2) is the only anchor of row 1. -/
def gTall : TableState := ⟨[⟨1, 1⟩, ⟨2, 1⟩, ⟨1, 1⟩], [[0, 1], [2]], [0, 1]⟩

/- Selection: both corners on cell A at matrix position `(0, 1)`. -/
def paramsTall : TableEditRange :=
  ⟨⟨some 0, none, 0, 1, some 0, some 1, 0, 0⟩, ⟨some 0, none, 0, 1, some 0, some 1, 0, 0⟩⟩

/-- C7 failing input, evaluated: on the valid grid `gTall` with the
selection on column 1, `AddColumnToLeft` inserts row 1's fresh cell at the
front of the row (cell 4 before Y) because `indexOf` returns `-1` for the
rowspan projection (`offsetColumn = 0`, `offsetRow = 1`, cell A not stored
in row 1) and `splice(-1, 0, _)` inserts before the last element; the grid
becomes `[[X, new, A], [new, Y]]` with Y displaced from column 0 to
column 1.  `DeleteLeftColumn` on the updated rectangle then deletes the
column now holding the *original* cell Y: the final grid `[[X, A], [new]]`
has the original column count but cell Y (index 2) is gone, so the
round trip does not restore every original cell's spans. -/
theorem addDeleteColumn_loses_cell :
    coverageCheck gTall.cellArena (serializeM gTall).1 2 2 = true ∧
    (addColumnToLeft gTall paramsTall).map
        (fun r => r.1.bodies.map (rowGet r.1.rowArena)) =
      some [[0, 3, 1], [4, 2]] ∧
    ((addColumnToLeft gTall paramsTall).bind (fun r => deleteLeftColumn r.1 r.2)).map
        (fun r => r.1.bodies.map (rowGet r.1.rowArena)) =
      some [[0, 1], [4]] ∧
    2 ∈ (gTall.bodies.map (rowGet gTall.rowArena)).flatten ∧
    ((addColumnToLeft gTall paramsTall).bind (fun r => deleteLeftColumn r.1 r.2)).map
        (fun r => decide (2 ∈ (r.1.bodies.map (rowGet r.1.rowArena)).flatten)) =
      some false := by
  exact ⟨by decide, by decide, by decide, by decide, by decide⟩

/- Single-cell grid and a selection whose two corner positions reference
   that same cell. -/
def gOne : TableState := ⟨[⟨1, 1⟩], [[0]], [0]⟩

def paramsOne : TableEditRange :=
  ⟨⟨none, none, 0, 0, some 0, some 0, 0, 0⟩, ⟨none, none, 0, 0, some 0, some 0, 0, 0⟩⟩

/-- Counterexample to C6 as stated: when the selection's start and end
positions reference the same cell, `addColumnToLeft` increments only the
start column index (the code's `startPosition.cell === endPosition.cell`
guard); on the single-cell grid the selection ends up as start column 1,
end column 0 - the end column index is *not* shifted by +1. -/
theorem addColumnToLeft_end_not_shifted :
    (addColumnToLeft gOne paramsOne).map
        (fun r => (r.2.startPosition.columnIndex, r.2.endPosition.columnIndex)) =
      some (some 1, some 0) := by
  decide

/- 2-row grid `[[A(rowspan 2, colspan 2)], []]`: one cell covering the
   whole 2x2 area, second grid row empty. -/
def gBig : TableState := ⟨[⟨2, 2⟩], [[0], []], [0, 1]⟩

/- Selection inside the spanned area with the rectangle's top at row 1. -/
def paramsBig : TableEditRange :=
  ⟨⟨none, none, 1, 0, some 1, some 0, 0, 1⟩, ⟨none, none, 1, 0, some 1, some 1, 1, 1⟩⟩

/-- Counterexample to C8 as stated: deleting the top row of the valid grid
`gBig` (cell A anchored at `(0,0)` with `rowspan = 2, colspan = 2`) does
*not* shrink cell A and place a 1x1 replacement: the original cell A
(index 0) is removed together with its row (content handle discarded) and
the replacement is a fresh cell (index 1) with `rowspan = 1, colspan = 2`
- same colspan as the original, not 1x1. -/
theorem deleteTopRow_replacement_not_1x1 :
    coverageCheck gBig.cellArena (serializeM gBig).1 2 2 = true ∧
    (deleteTopRow gBig paramsBig).map
        (fun r => (r.1.bodies.map (rowGet r.1.rowArena)).map
          (·.map (fun cid => (cid, cellOf r.1.cellArena cid)))) =
      some [[(1, ⟨1, 2⟩)]] := by
  exact ⟨by decide, by decide⟩

/- ----------------------------------------------------------------- -/
/- Arena access lemmas. -/

theorem cellOf_append_lt {cells : List TableCell} {k : Nat} {c : TableCell}
    (h : k < cells.length) : cellOf (cells ++ [c]) k = cellOf cells k := by
  unfold cellOf
  rw [List.getD_eq_getElem?_getD, List.getD_eq_getElem?_getD,
    List.getElem?_append_left h]

theorem cellOf_append_self {cells : List TableCell} {c : TableCell} :
    cellOf (cells ++ [c]) cells.length = c := by
  unfold cellOf
  rw [List.getD_eq_getElem?_getD, List.getElem?_append_right (le_refl _)]
  simp

theorem cellOf_set_ne {cells : List TableCell} {k k' : Nat} {c : TableCell}
    (h : k ≠ k') : cellOf (cells.set k' c) k = cellOf cells k := by
  unfold cellOf
  rw [List.getD_eq_getElem?_getD, List.getD_eq_getElem?_getD,
    List.getElem?_set_ne (by omega)]

theorem cellOf_set_self {cells : List TableCell} {k : Nat} {c : TableCell}
    (h : k < cells.length) : cellOf (cells.set k c) k = c := by
  unfold cellOf
  rw [List.getD_eq_getElem?_getD, List.getElem?_set_self]
  · simp
  · exact h

theorem rowGet_set_ne {rowArena : List (List Nat)} {rid rid' : Nat} {l : List Nat}
    (h : rid ≠ rid') : rowGet (setRow rowArena rid' l) rid = rowGet rowArena rid := by
  unfold rowGet setRow
  rw [List.getD_eq_getElem?_getD, List.getD_eq_getElem?_getD,
    List.getElem?_set_ne (by omega)]

theorem rowGet_set_self {rowArena : List (List Nat)} {rid : Nat} {l : List Nat}
    (h : rid < rowArena.length) :
    rowGet (setRow rowArena rid l) rid = l := by
  unfold rowGet setRow
  rw [List.getD_eq_getElem?_getD, List.getElem?_set_self]
  · simp
  · exact h

/- Number of matrix rows whose position at the target column asks for a
   `colspan` increment of cell `k` in `addColumnToLeft`. -/
def addColIncrements (index : Int) (rows : List TableRowPosition) (k : Nat) : Nat :=
  (rows.filter fun row =>
    decide (index ≠ 0) &&
    match getIdx row.cellsPosition index with
    | some p => decide (0 < p.offsetColumn ∧ p.offsetRow = 0 ∧ p.cell = k)
    | none => false).length

theorem addColIncrements_cons {index : Int} {row : TableRowPosition}
    {rest : List TableRowPosition} {k : Nat} {p : TableCellPosition}
    (hp : getIdx row.cellsPosition index = some p) :
    addColIncrements index (row :: rest) k =
      (if index ≠ 0 ∧ 0 < p.offsetColumn ∧ p.offsetRow = 0 ∧ p.cell = k then 1 else 0) +
        addColIncrements index rest k := by
  unfold addColIncrements
  rw [List.filter_cons]
  simp only [hp]
  by_cases h : index ≠ 0 ∧ 0 < p.offsetColumn ∧ p.offsetRow = 0 ∧ p.cell = k
  · rw [if_pos h]
    obtain ⟨h1, h2⟩ := h
    rw [if_pos (by simp [h1, h2])]
    simp [Nat.add_comm]
  · rw [if_neg h]
    rw [if_neg ?hcon]
    · simp
    · intro hcon
      simp only [Bool.and_eq_true, decide_eq_true_eq] at hcon
      exact h ⟨hcon.1, hcon.2⟩

theorem addColIncrements_zero {index : Int} {rows : List TableRowPosition} {k : Nat}
    (h : ∀ row ∈ rows, ∀ p, getIdx row.cellsPosition index = some p → p.cell ≠ k) :
    addColIncrements index rows k = 0 := by
  unfold addColIncrements
  rw [List.length_eq_zero]
  rw [List.filter_eq_nil_iff]
  intro row hrow
  cases hp : getIdx row.cellsPosition index with
  | none => simp
  | some p =>
    have := h row hrow p hp
    simp [this]

/- Effect of one `forEach` body of `addColumnToLeft` on the state. -/
theorem addColumnToLeftStep_spec {index : Int} {acc : TableState}
    {row : TableRowPosition} {p : TableCellPosition}
    (hp : getIdx row.cellsPosition index = some p)
    (hprow : p.row = row.cells) (hpcell : p.cell < acc.cellArena.length)
    (hrlt : row.cells < acc.rowArena.length) :
    ∃ acc1, addColumnToLeftStep index acc row = some acc1 ∧
      acc.cellArena.length ≤ acc1.cellArena.length ∧
      acc1.rowArena.length = acc.rowArena.length ∧
      acc1.bodies = acc.bodies ∧
      (∀ k, k < acc.cellArena.length →
        (cellOf acc1.cellArena k).rowspan = (cellOf acc.cellArena k).rowspan ∧
        (cellOf acc1.cellArena k).colspan = (cellOf acc.cellArena k).colspan +
          (if index ≠ 0 ∧ 0 < p.offsetColumn ∧ p.offsetRow = 0 ∧ p.cell = k
            then 1 else 0)) ∧
      (∀ rid, rid ≠ row.cells → rowGet acc1.rowArena rid = rowGet acc.rowArena rid) ∧
      (index = 0 →
        ∃ fid, acc.cellArena.length ≤ fid ∧ fid < acc1.cellArena.length ∧
          cellOf acc1.cellArena fid = ⟨1, 1⟩ ∧
          rowGet acc1.rowArena row.cells = fid :: rowGet acc.rowArena row.cells) ∧
      (index ≠ 0 → p.offsetColumn = 0 →
        ∃ fid, acc.cellArena.length ≤ fid ∧ fid < acc1.cellArena.length ∧
          cellOf acc1.cellArena fid = ⟨1, 1⟩ ∧
          rowGet acc1.rowArena row.cells =
            jsInsertAt (rowGet acc.rowArena row.cells)
              (jsIndexOf (rowGet acc.rowArena row.cells) p.cell) fid) ∧
      (index ≠ 0 → p.offsetColumn ≠ 0 →
        rowGet acc1.rowArena row.cells = rowGet acc.rowArena row.cells) := by
  rw [addColumnToLeftStep]
  simp only [hp]
  by_cases h0 : index = 0
  · rw [if_pos h0]
    refine ⟨_, rfl, by simp [allocCell], by simp [allocCell, setRow], by simp [allocCell],
      ?_, ?_, ?_, ?_, ?_⟩
    · intro k hk
      simp only [allocCell]
      rw [cellOf_append_lt hk]
      simp [h0]
    · intro rid hrid
      simp only [allocCell]
      rw [hprow]
      exact rowGet_set_ne hrid
    · intro _
      refine ⟨acc.cellArena.length, le_refl _, by simp [allocCell], ?_, ?_⟩
      · simp only [allocCell]
        exact cellOf_append_self
      · simp only [allocCell]
        rw [hprow]
        exact rowGet_set_self hrlt
    · intro hcon
      exact absurd h0 hcon
    · intro hcon
      exact absurd h0 hcon
  · rw [if_neg h0]
    by_cases hoc : p.offsetColumn = 0
    · rw [if_pos hoc]
      refine ⟨_, rfl, by simp [allocCell], by simp [allocCell, setRow], by simp [allocCell],
        ?_, ?_, ?_, ?_, ?_⟩
      · intro k hk
        simp only [allocCell]
        rw [cellOf_append_lt hk]
        simp [hoc]
      · intro rid hrid
        simp only [allocCell]
        rw [hprow]
        exact rowGet_set_ne hrid
      · intro hcon
        exact absurd hcon h0
      · intro _ _
        refine ⟨acc.cellArena.length, le_refl _, by simp [allocCell], ?_, ?_⟩
        · simp only [allocCell]
          exact cellOf_append_self
        · simp only [allocCell]
          rw [hprow]
          exact rowGet_set_self hrlt
      · intro _ hcon
        exact absurd hoc hcon
    · rw [if_neg hoc]
      by_cases hor : p.offsetRow = 0
      · rw [if_pos hor]
        refine ⟨_, rfl, by simp [modCell], by simp [modCell], by simp [modCell],
          ?_, fun rid _ => rfl, fun hcon => absurd hcon h0,
          fun _ hcon => absurd hcon hoc, fun _ _ => rfl⟩
        intro k hk
        simp only [modCell]
        by_cases hkp : k = p.cell
        · subst hkp
          rw [cellOf_set_self hpcell]
          simp [h0, hor, hoc, Nat.pos_of_ne_zero hoc]
        · rw [cellOf_set_ne hkp]
          have : ¬(index ≠ 0 ∧ 0 < p.offsetColumn ∧ p.offsetRow = 0 ∧ p.cell = k) := by
            intro hcon
            exact hkp hcon.2.2.2.symm
          simp [this]
      · rw [if_neg hor]
        refine ⟨acc, rfl, le_refl _, rfl, rfl, ?_, fun rid _ => rfl,
          fun hcon => absurd hcon h0, fun _ hcon => absurd hcon hoc, fun _ _ => rfl⟩
        intro k hk
        have : ¬(index ≠ 0 ∧ 0 < p.offsetColumn ∧ p.offsetRow = 0 ∧ p.cell = k) := by
          intro hcon
          exact hor hcon.2.2.1
        simp [this]

/- Effect of the whole `forEach` of `addColumnToLeft` over matrix rows with
   pairwise distinct grid-row arrays. -/
theorem addColumnToLeftStep_fold (index : Int) :
    ∀ (rows : List TableRowPosition) (acc : TableState),
    (∀ row ∈ rows, ∃ p, getIdx row.cellsPosition index = some p ∧
      p.row = row.cells ∧ p.cell < acc.cellArena.length) →
    (∀ row ∈ rows, row.cells < acc.rowArena.length) →
    (rows.map (·.cells)).Nodup →
    ∃ s', List.foldlM (fun a row => addColumnToLeftStep index a row) acc rows = some s' ∧
      acc.cellArena.length ≤ s'.cellArena.length ∧
      s'.rowArena.length = acc.rowArena.length ∧
      s'.bodies = acc.bodies ∧
      (∀ k, k < acc.cellArena.length →
        (cellOf s'.cellArena k).rowspan = (cellOf acc.cellArena k).rowspan ∧
        (cellOf s'.cellArena k).colspan =
          (cellOf acc.cellArena k).colspan + addColIncrements index rows k) ∧
      (∀ rid, rid ∉ rows.map (·.cells) →
        rowGet s'.rowArena rid = rowGet acc.rowArena rid) ∧
      (∀ row ∈ rows, ∀ p, getIdx row.cellsPosition index = some p →
        (index = 0 →
          ∃ fid, acc.cellArena.length ≤ fid ∧ cellOf s'.cellArena fid = ⟨1, 1⟩ ∧
            rowGet s'.rowArena row.cells = fid :: rowGet acc.rowArena row.cells) ∧
        (index ≠ 0 → p.offsetColumn = 0 →
          ∃ fid, acc.cellArena.length ≤ fid ∧ cellOf s'.cellArena fid = ⟨1, 1⟩ ∧
            rowGet s'.rowArena row.cells =
              jsInsertAt (rowGet acc.rowArena row.cells)
                (jsIndexOf (rowGet acc.rowArena row.cells) p.cell) fid) ∧
        (index ≠ 0 → p.offsetColumn ≠ 0 →
          rowGet s'.rowArena row.cells = rowGet acc.rowArena row.cells)) := by
  intro rows
  induction rows with
  | nil =>
    intro acc hpos hrlt hnd
    refine ⟨acc, rfl, le_refl _, rfl, rfl, ?_, fun rid _ => rfl,
      fun row hrow => absurd hrow (by simp)⟩
    intro k hk
    simp [addColIncrements]
  | cons row rest ih =>
    intro acc hpos hrlt hnd
    obtain ⟨p, hp, hprow, hpcell⟩ := hpos row (by simp)
    have hndrest : (rest.map (·.cells)).Nodup := by
      simp only [List.map_cons, List.nodup_cons] at hnd
      exact hnd.2
    have hrowni : row.cells ∉ rest.map (·.cells) := by
      simp only [List.map_cons, List.nodup_cons] at hnd
      exact hnd.1
    obtain ⟨acc1, hstep1, hlen1, hral1, hbod1, hsp1, hrg1, hbrA, hbrB, hbrC⟩ :=
      addColumnToLeftStep_spec hp hprow hpcell (hrlt row (by simp))
    obtain ⟨s', hfold, hlen2, hral2, hbod2, hsp2, hrg2, hbr2⟩ := ih acc1
      (fun r hr => by
        obtain ⟨p', hp', hpr', hpc'⟩ := hpos r (by simp [hr])
        exact ⟨p', hp', hpr', by omega⟩)
      (fun r hr => by
        have := hrlt r (by simp [hr])
        omega)
      hndrest
    have hcellne : ∀ r ∈ rest, ∀ p', getIdx r.cellsPosition index = some p' →
        ∀ fid, acc.cellArena.length ≤ fid → p'.cell ≠ fid := by
      intro r hr p' hp' fid hfid
      obtain ⟨p'', hp'', -, hpc''⟩ := hpos r (by simp [hr])
      rw [hp'] at hp''
      have := Option.some_injective _ hp''
      subst this
      omega
    refine ⟨s', ?_, by omega, by omega, by rw [hbod2, hbod1], ?_, ?_, ?_⟩
    · rw [List.foldlM_cons, hstep1]
      exact hfold
    · intro k hk
      have h1 := hsp1 k hk
      have h2 := hsp2 k (by omega)
      rw [addColIncrements_cons hp]
      constructor
      · rw [h2.1, h1.1]
      · rw [h2.2, h1.2]
        omega
    · intro rid hrid
      have hr1 : rid ≠ row.cells := by
        intro hcon
        exact hrid (by simp [hcon])
      have hr2 : rid ∉ rest.map (·.cells) := by
        intro hcon
        exact hrid (by simp [hcon])
      rw [hrg2 rid hr2, hrg1 rid hr1]
    · intro r hr p' hp'
      rcases List.mem_cons.mp hr with rfl | hrrest
      · -- the head row: its update persists through the tail
        have hpp' : p' = p := by
          rw [hp] at hp'
          exact (Option.some_injective _ hp').symm
        subst hpp'
        have hrowKeep : rowGet s'.rowArena r.cells = rowGet acc1.rowArena r.cells :=
          hrg2 r.cells hrowni
        refine ⟨?_, ?_, ?_⟩
        · intro h0
          obtain ⟨fid, hfid1, hfidlt, hfid2, hfid3⟩ := hbrA h0
          refine ⟨fid, hfid1, ?_, by rw [hrowKeep, hfid3]⟩
          have hkeep := hsp2 fid hfidlt
          have hz : addColIncrements index rest fid = 0 :=
            addColIncrements_zero (fun r' hr' p'' hp'' => hcellne r' hr' p'' hp'' fid hfid1)
          rw [hz] at hkeep
          have e1 : (cellOf s'.cellArena fid).rowspan = 1 := by
            rw [hkeep.1, hfid2]
          have e2 : (cellOf s'.cellArena fid).colspan = 1 := by
            rw [hkeep.2, hfid2]
          cases hc : cellOf s'.cellArena fid with
          | mk a b =>
            rw [hc] at e1 e2
            simp at e1 e2
            rw [e1, e2]
        · intro h0 hoc
          obtain ⟨fid, hfid1, hfidlt, hfid2, hfid3⟩ := hbrB h0 hoc
          refine ⟨fid, hfid1, ?_, by rw [hrowKeep, hfid3]⟩
          have hkeep := hsp2 fid hfidlt
          have hz : addColIncrements index rest fid = 0 :=
            addColIncrements_zero (fun r' hr' p'' hp'' => hcellne r' hr' p'' hp'' fid hfid1)
          rw [hz] at hkeep
          have e1 : (cellOf s'.cellArena fid).rowspan = 1 := by
            rw [hkeep.1, hfid2]
          have e2 : (cellOf s'.cellArena fid).colspan = 1 := by
            rw [hkeep.2, hfid2]
          cases hc : cellOf s'.cellArena fid with
          | mk a b =>
            rw [hc] at e1 e2
            simp at e1 e2
            rw [e1, e2]
        · intro h0 hoc
          rw [hrg2 r.cells hrowni, hbrC h0 hoc]
      · -- a tail row
        have hrne : r.cells ≠ row.cells := by
          intro hcon
          exact hrowni (hcon ▸ List.mem_map_of_mem (·.cells) hrrest)
        have hbase : rowGet acc1.rowArena r.cells = rowGet acc.rowArena r.cells :=
          hrg1 r.cells hrne
        obtain ⟨hA, hB, hC⟩ := hbr2 r hrrest p' hp'
        refine ⟨?_, ?_, ?_⟩
        · intro h0
          obtain ⟨fid, hfid1, hfid2, hfid3⟩ := hA h0
          exact ⟨fid, by omega, hfid2, by rw [hfid3, hbase]⟩
        · intro h0 hoc
          obtain ⟨fid, hfid1, hfid2, hfid3⟩ := hB h0 hoc
          exact ⟨fid, by omega, hfid2, by rw [hfid3, hbase]⟩
        · intro h0 hoc
          rw [hC h0 hoc, hbase]

/- Decidable side conditions for the `addColumnToLeft` characterization:
   every matrix row has a position at the target column whose `row` field
   is the row's own grid-row array and whose cell is a stored cell. -/
def addColPosCheck (s : TableState) (c : Int) : Bool :=
  (serializeM s).1.all fun row =>
    match getIdx row.cellsPosition c with
    | some p => (p.row == row.cells) && decide (p.cell < s.cellArena.length) &&
        decide (row.cells < (serializeM s).2.length)
    | none => false

/-- C6 (amended): `addColumnToLeft`, for every row of the projected matrix
at the target column `c`, inserts a fresh 1x1 cell at the front of the
row's grid row when `c = 0`; when `c ≠ 0` and `offsetColumn = 0` it
inserts a fresh 1x1 cell at JS splice index `row.indexOf(cell)`
(immediately before the position's cell when that cell is stored in this
grid row, and before the row's last element otherwise, since `indexOf`
yields `-1`); when `offsetColumn > 0` it increments the cell's `colspan`
exactly for the rows whose position is on the span's anchor row
(`offsetRow = 0`, counted by `addColIncrements`; once per spanned cell for
a valid matrix) and touches nothing for the remaining rows.  Afterwards it
shifts the start column index by `+1`, but shifts the end column index by
`+1` only when the start and end positions reference different cells
(the code's aliasing guard - see the counterexample). -/
theorem addColumnToLeft_characterization (s : TableState) (params : TableEditRange)
    (c : Int) (hc : params.startPosition.columnIndex = some c)
    (hchk : addColPosCheck s c = true)
    (hnd : ((serializeM s).1.map (·.cells)).Nodup) :
    ∃ s', addColumnToLeft s params = some (s', shiftColumns params c 1) ∧
      s'.bodies = s.bodies ∧
      (∀ k, k < s.cellArena.length →
        (cellOf s'.cellArena k).rowspan = (cellOf s.cellArena k).rowspan ∧
        (cellOf s'.cellArena k).colspan =
          (cellOf s.cellArena k).colspan + addColIncrements c (serializeM s).1 k) ∧
      (∀ rid, rid ∉ (serializeM s).1.map (·.cells) →
        rowGet s'.rowArena rid = rowGet s.rowArena rid) ∧
      (∀ row ∈ (serializeM s).1, ∀ p, getIdx row.cellsPosition c = some p →
        (c = 0 →
          ∃ fid, s.cellArena.length ≤ fid ∧ cellOf s'.cellArena fid = ⟨1, 1⟩ ∧
            rowGet s'.rowArena row.cells = fid :: rowGet s.rowArena row.cells) ∧
        (c ≠ 0 → p.offsetColumn = 0 →
          ∃ fid, s.cellArena.length ≤ fid ∧ cellOf s'.cellArena fid = ⟨1, 1⟩ ∧
            rowGet s'.rowArena row.cells =
              jsInsertAt (rowGet s.rowArena row.cells)
                (jsIndexOf (rowGet s.rowArena row.cells) p.cell) fid) ∧
        (c ≠ 0 → p.offsetColumn ≠ 0 →
          rowGet s'.rowArena row.cells = rowGet s.rowArena row.cells)) ∧
      (shiftColumns params c 1).startPosition.columnIndex = some (c + 1) ∧
      (params.startPosition.cell = params.endPosition.cell →
        (shiftColumns params c 1).endPosition = params.endPosition) ∧
      (params.startPosition.cell ≠ params.endPosition.cell →
        (shiftColumns params c 1).endPosition.columnIndex =
          some (params.endPosition.columnIndex.getD 0 + 1)) := by
  have hrow0 : ∀ rid, rowGet (postSerialize s).rowArena rid = rowGet s.rowArena rid :=
    (postSerialize_sameStore s).2.2
  have hchk' : ∀ row ∈ (serializeM s).1, ∃ p, getIdx row.cellsPosition c = some p ∧
      p.row = row.cells ∧ p.cell < s.cellArena.length ∧
      row.cells < (serializeM s).2.length := by
    intro row hrow
    have := List.all_eq_true.mp hchk row hrow
    revert this
    cases hp : getIdx row.cellsPosition c with
    | none => intro hcon; exact absurd hcon (by simp)
    | some p =>
      intro hfacts
      simp only [Bool.and_eq_true, beq_iff_eq, decide_eq_true_eq] at hfacts
      exact ⟨p, rfl, hfacts.1.1, hfacts.1.2, hfacts.2⟩
  obtain ⟨s', hfold, hlen, hral, hbod, hsp, hrg, hbr⟩ :=
    addColumnToLeftStep_fold c (serializeM s).1 (postSerialize s)
      (fun row hrow => by
        obtain ⟨p, hp, h1, h2, h3⟩ := hchk' row hrow
        exact ⟨p, hp, h1, h2⟩)
      (fun row hrow => by
        obtain ⟨p, hp, h1, h2, h3⟩ := hchk' row hrow
        exact h3)
      hnd
  refine ⟨s', ?_, by rw [hbod]; rfl, ?_, ?_, ?_, ?_, ?_, ?_⟩
  · simp only [addColumnToLeft, hc, Option.bind_eq_bind, Option.some_bind]
    have hfold2 : List.foldlM (fun a row => addColumnToLeftStep c a row)
        { s with rowArena := (serializeM s).2 } (serializeM s).1 = some s' := hfold
    rw [hfold2]
    rfl
  · intro k hk
    exact hsp k hk
  · intro rid hrid
    rw [hrg rid hrid, hrow0]
  · intro row hrow p hp
    obtain ⟨hA, hB, hC⟩ := hbr row hrow p hp
    refine ⟨?_, ?_, ?_⟩
    · intro h0
      obtain ⟨fid, h1, h2, h3⟩ := hA h0
      exact ⟨fid, h1, h2, by rw [h3, hrow0]⟩
    · intro h0 hoc
      obtain ⟨fid, h1, h2, h3⟩ := hB h0 hoc
      exact ⟨fid, h1, h2, by rw [h3, hrow0]⟩
    · intro h0 hoc
      rw [hC h0 hoc, hrow0]
  · unfold shiftColumns
    split <;> rfl
  · intro he
    unfold shiftColumns
    rw [if_pos he]
  · intro he
    unfold shiftColumns
    rw [if_neg he]

/-- Witness for C6's amended statement on the 2x2 grid of four 1x1 cells
with target column 0 (start and end reference different cells, so both
selection columns shift). -/
theorem addColumnToLeft_characterization_witness :
    ∃ s', addColumnToLeft gQuad paramsQuad = some (s', shiftColumns paramsQuad 0 1) ∧
      s'.bodies = gQuad.bodies ∧
      (∀ k, k < gQuad.cellArena.length →
        (cellOf s'.cellArena k).rowspan = (cellOf gQuad.cellArena k).rowspan ∧
        (cellOf s'.cellArena k).colspan =
          (cellOf gQuad.cellArena k).colspan + addColIncrements 0 (serializeM gQuad).1 k) ∧
      (∀ rid, rid ∉ (serializeM gQuad).1.map (·.cells) →
        rowGet s'.rowArena rid = rowGet gQuad.rowArena rid) ∧
      (∀ row ∈ (serializeM gQuad).1, ∀ p, getIdx row.cellsPosition 0 = some p →
        ((0 : Int) = 0 →
          ∃ fid, gQuad.cellArena.length ≤ fid ∧ cellOf s'.cellArena fid = ⟨1, 1⟩ ∧
            rowGet s'.rowArena row.cells = fid :: rowGet gQuad.rowArena row.cells) ∧
        ((0 : Int) ≠ 0 → p.offsetColumn = 0 →
          ∃ fid, gQuad.cellArena.length ≤ fid ∧ cellOf s'.cellArena fid = ⟨1, 1⟩ ∧
            rowGet s'.rowArena row.cells =
              jsInsertAt (rowGet gQuad.rowArena row.cells)
                (jsIndexOf (rowGet gQuad.rowArena row.cells) p.cell) fid) ∧
        ((0 : Int) ≠ 0 → p.offsetColumn ≠ 0 →
          rowGet s'.rowArena row.cells = rowGet gQuad.rowArena row.cells)) ∧
      (shiftColumns paramsQuad 0 1).startPosition.columnIndex = some 1 ∧
      (paramsQuad.startPosition.cell = paramsQuad.endPosition.cell →
        (shiftColumns paramsQuad 0 1).endPosition = paramsQuad.endPosition) ∧
      (paramsQuad.startPosition.cell ≠ paramsQuad.endPosition.cell →
        (shiftColumns paramsQuad 0 1).endPosition.columnIndex =
          some (paramsQuad.endPosition.columnIndex.getD 0 + 1)) :=
  addColumnToLeft_characterization gQuad paramsQuad 0 rfl (by decide) (by decide)

theorem mem_jsInsertAt_self {α : Type} (l : List α) (i : Int) (a : α) :
    a ∈ jsInsertAt l i a := by
  unfold jsInsertAt
  simp

theorem mem_jsInsertAt_of_mem {α : Type} {l : List α} {x : α} (i : Int) (a : α)
    (h : x ∈ l) : x ∈ jsInsertAt l i a := by
  unfold jsInsertAt
  rcases (List.mem_append.mp ((List.take_append_drop (jsNorm l.length i) l).symm ▸ h)) with
    h1 | h1
  · exact List.mem_append.mpr (Or.inl h1)
  · exact List.mem_append.mpr (Or.inr (List.mem_cons_of_mem a h1))

/- Effect of one `forEach` body of `deleteTopRow`. -/
theorem deleteTopRowStep_spec {m : List TableRowPosition} {index : Int}
    {acc : TableState} {k : Nat} {p : TableCellPosition}
    {nextRow : TableRowPosition}
    (hnr : getIdx m index = some nextRow)
    (hpc : p.offsetColumn = 0 → p.cell < acc.cellArena.length)
    (hnp : p.offsetColumn = 0 → p.offsetRow = 0 →
      (cellOf acc.cellArena p.cell).rowspan > 1 →
      ∃ np, nextRow.cellsPosition[k]? = some np ∧ np.row = nextRow.cells)
    (hnrlt : nextRow.cells < acc.rowArena.length) :
    ∃ acc1, deleteTopRowStep m index acc (k, p) = some acc1 ∧
      acc1.bodies = acc.bodies ∧
      acc.cellArena.length ≤ acc1.cellArena.length ∧
      acc1.rowArena.length = acc.rowArena.length ∧
      (∀ rid, rid ≠ nextRow.cells → rowGet acc1.rowArena rid = rowGet acc.rowArena rid) ∧
      (∀ x, x ∈ rowGet acc.rowArena nextRow.cells → x ∈ rowGet acc1.rowArena nextRow.cells) ∧
      (∀ j, j < acc.cellArena.length → ¬(p.offsetColumn = 0 ∧ p.cell = j) →
        cellOf acc1.cellArena j = cellOf acc.cellArena j) ∧
      (p.offsetColumn = 0 →
        (p.offsetRow = 0 → (cellOf acc.cellArena p.cell).rowspan > 1 →
          ∃ fid, acc.cellArena.length ≤ fid ∧ fid < acc1.cellArena.length ∧
            cellOf acc1.cellArena fid =
              ⟨(cellOf acc.cellArena p.cell).rowspan - 1,
                (cellOf acc.cellArena p.cell).colspan⟩ ∧
            cellOf acc1.cellArena p.cell = cellOf acc.cellArena p.cell ∧
            fid ∈ rowGet acc1.rowArena nextRow.cells) ∧
        (¬(p.offsetRow = 0 ∧ (cellOf acc.cellArena p.cell).rowspan > 1) →
          cellOf acc1.cellArena p.cell =
            { cellOf acc.cellArena p.cell with
                rowspan := (cellOf acc.cellArena p.cell).rowspan - 1 })) := by
  by_cases hoc : p.offsetColumn = 0
  · by_cases hA : p.offsetRow = 0 ∧ (cellOf acc.cellArena p.cell).rowspan > 1
    · obtain ⟨np, hnp', hnprow⟩ := hnp hoc hA.1 hA.2
      have hbind : (getIdx m index).bind (fun r => r.cellsPosition[(k, p).1]?) = some np := by
        rw [hnr]
        simpa using hnp'
      have hL' : ∃ L', (match np.afterCell with
          | some after => jsInsertAt (rowGet acc.rowArena np.row)
              (jsIndexOf (rowGet acc.rowArena np.row) after) acc.cellArena.length
          | none => rowGet acc.rowArena np.row ++ [acc.cellArena.length]) = L' ∧
          acc.cellArena.length ∈ L' ∧
          ∀ x ∈ rowGet acc.rowArena np.row, x ∈ L' := by
        cases np.afterCell with
        | none =>
          exact ⟨_, rfl, by simp, fun x hx => List.mem_append.mpr (Or.inl hx)⟩
        | some after =>
          exact ⟨_, rfl, mem_jsInsertAt_self _ _ _, fun x hx => mem_jsInsertAt_of_mem _ _ hx⟩
      obtain ⟨L', hL'eq, hL'mem, hL'mono⟩ := hL'
      have heq : deleteTopRowStep m index acc (k, p) = some
          ⟨acc.cellArena ++ [⟨(cellOf acc.cellArena p.cell).rowspan - 1,
            (cellOf acc.cellArena p.cell).colspan⟩],
           setRow acc.rowArena np.row L', acc.bodies⟩ := by
        unfold deleteTopRowStep
        rw [if_pos hoc, if_pos hA]
        simp only [hbind, Option.bind_eq_bind, Option.some_bind, allocCell]
        rw [← hL'eq]
      have hnrlt' : np.row < acc.rowArena.length := by
        rw [hnprow]
        exact hnrlt
      refine ⟨_, heq, rfl, by simp, by simp [setRow], ?_, ?_, ?_, ?_⟩
      · intro rid hrid
        show rowGet (setRow acc.rowArena np.row L') rid = rowGet acc.rowArena rid
        rw [hnprow]
        exact rowGet_set_ne hrid
      · intro x hx
        show x ∈ rowGet (setRow acc.rowArena np.row L') nextRow.cells
        rw [← hnprow, rowGet_set_self hnrlt']
        rw [← hnprow] at hx
        exact hL'mono x hx
      · intro j hj hjne
        show cellOf (acc.cellArena ++ [⟨(cellOf acc.cellArena p.cell).rowspan - 1,
          (cellOf acc.cellArena p.cell).colspan⟩]) j = cellOf acc.cellArena j
        exact cellOf_append_lt hj
      · intro _
        refine ⟨?_, ?_⟩
        · intro _ _
          refine ⟨acc.cellArena.length, le_refl _, by simp, ?_, ?_, ?_⟩
          · show cellOf (acc.cellArena ++ [⟨(cellOf acc.cellArena p.cell).rowspan - 1,
              (cellOf acc.cellArena p.cell).colspan⟩]) acc.cellArena.length = _
            exact cellOf_append_self
          · show cellOf (acc.cellArena ++ [⟨(cellOf acc.cellArena p.cell).rowspan - 1,
              (cellOf acc.cellArena p.cell).colspan⟩]) p.cell = cellOf acc.cellArena p.cell
            exact cellOf_append_lt (hpc hoc)
          · show acc.cellArena.length ∈ rowGet (setRow acc.rowArena np.row L') nextRow.cells
            rw [← hnprow, rowGet_set_self hnrlt']
            exact hL'mem
        · intro hcon
          exact absurd hA hcon
    · have heq : deleteTopRowStep m index acc (k, p) =
          some (modCell acc p.cell fun c => { c with rowspan := c.rowspan - 1 }) := by
        unfold deleteTopRowStep
        rw [if_pos hoc, if_neg hA]
      refine ⟨_, heq, by simp [modCell], by simp [modCell], by simp [modCell],
        fun rid _ => rfl, fun x hx => hx, ?_, ?_⟩
      · intro j hj hjne
        simp only [modCell]
        exact cellOf_set_ne (fun hcon => hjne ⟨hoc, hcon.symm⟩)
      · intro _
        refine ⟨fun h1 h2 => absurd ⟨h1, h2⟩ hA, fun _ => ?_⟩
        simp only [modCell]
        exact cellOf_set_self (hpc hoc)
  · have heq : deleteTopRowStep m index acc (k, p) = some acc := by
      unfold deleteTopRowStep
      rw [if_neg hoc]
    exact ⟨acc, heq, rfl, le_refl _, rfl, fun rid _ => rfl, fun x hx => hx,
      fun j hj hjne => rfl, fun hcon => absurd hcon hoc⟩

/- Effect of the whole `forEach` of `deleteTopRow` over the previous row's
   positions when the anchor cells at the target column are pairwise
   distinct. -/
theorem deleteTopRowStep_fold (m : List TableRowPosition) (index : Int)
    (nextRow : TableRowPosition) (hnr : getIdx m index = some nextRow) :
    ∀ (items : List (Nat × TableCellPosition)) (acc : TableState),
    (∀ kp ∈ items, kp.2.offsetColumn = 0 → kp.2.cell < acc.cellArena.length) →
    (∀ kp ∈ items, kp.2.offsetColumn = 0 → kp.2.offsetRow = 0 →
      (cellOf acc.cellArena kp.2.cell).rowspan > 1 →
      ∃ np, nextRow.cellsPosition[kp.1]? = some np ∧ np.row = nextRow.cells) →
    ((items.filter (fun kp => kp.2.offsetColumn == 0)).map (·.2.cell)).Nodup →
    nextRow.cells < acc.rowArena.length →
    ∃ s', List.foldlM (deleteTopRowStep m index) acc items = some s' ∧
      s'.bodies = acc.bodies ∧
      acc.cellArena.length ≤ s'.cellArena.length ∧
      s'.rowArena.length = acc.rowArena.length ∧
      (∀ rid, rid ≠ nextRow.cells → rowGet s'.rowArena rid = rowGet acc.rowArena rid) ∧
      (∀ x, x ∈ rowGet acc.rowArena nextRow.cells → x ∈ rowGet s'.rowArena nextRow.cells) ∧
      (∀ j, j < acc.cellArena.length →
        (∀ kp ∈ items, ¬(kp.2.offsetColumn = 0 ∧ kp.2.cell = j)) →
        cellOf s'.cellArena j = cellOf acc.cellArena j) ∧
      (∀ kp ∈ items, kp.2.offsetColumn = 0 →
        (kp.2.offsetRow = 0 → (cellOf acc.cellArena kp.2.cell).rowspan > 1 →
          ∃ fid, acc.cellArena.length ≤ fid ∧
            cellOf s'.cellArena fid = ⟨(cellOf acc.cellArena kp.2.cell).rowspan - 1,
              (cellOf acc.cellArena kp.2.cell).colspan⟩ ∧
            cellOf s'.cellArena kp.2.cell = cellOf acc.cellArena kp.2.cell ∧
            fid ∈ rowGet s'.rowArena nextRow.cells) ∧
        (¬(kp.2.offsetRow = 0 ∧ (cellOf acc.cellArena kp.2.cell).rowspan > 1) →
          cellOf s'.cellArena kp.2.cell =
            { cellOf acc.cellArena kp.2.cell with
                rowspan := (cellOf acc.cellArena kp.2.cell).rowspan - 1 })) := by
  intro items
  induction items with
  | nil =>
    intro acc hlt hnp hnd hnrlt
    exact ⟨acc, rfl, rfl, le_refl _, rfl, fun rid _ => rfl, fun x hx => hx,
      fun j _ _ => rfl, fun kp hkp => absurd hkp (by simp)⟩
  | cons kp rest ih =>
    intro acc hlt hnp hnd hnrlt
    obtain ⟨k, p⟩ := kp
    have hdisj : ∀ kp' ∈ rest, p.offsetColumn = 0 → kp'.2.offsetColumn = 0 →
        kp'.2.cell ≠ p.cell := by
      intro kp' hkp' hoc hoc' hcon
      rw [List.filter_cons] at hnd
      rw [if_pos (by simpa using hoc)] at hnd
      simp only [List.map_cons, List.nodup_cons] at hnd
      exact hnd.1 (List.mem_map.mpr ⟨kp', List.mem_filter.mpr ⟨hkp', by simpa using hoc'⟩,
        by rw [hcon]⟩)
    obtain ⟨acc1, hstep, hbod1, hlen1, hral1, hrg1, hmono1, hpre1, hbr1⟩ :=
      @deleteTopRowStep_spec m index acc k p nextRow hnr
        (fun hoc => hlt (k, p) (by simp) hoc)
        (fun hoc hor hrs => hnp (k, p) (by simp) hoc hor hrs)
        hnrlt
    have hcell1 : ∀ kp' ∈ rest, kp'.2.offsetColumn = 0 →
        cellOf acc1.cellArena kp'.2.cell = cellOf acc.cellArena kp'.2.cell := by
      intro kp' hkp' hoc'
      refine hpre1 kp'.2.cell (hlt kp' (by simp [hkp']) hoc') ?_
      rintro ⟨hoc, hceq⟩
      exact hdisj kp' hkp' hoc hoc' hceq.symm
    have hndrest :
        ((rest.filter (fun kp => kp.2.offsetColumn == 0)).map (·.2.cell)).Nodup := by
      rw [List.filter_cons] at hnd
      by_cases hoc : p.offsetColumn = 0
      · rw [if_pos (by simpa using hoc)] at hnd
        simp only [List.map_cons, List.nodup_cons] at hnd
        exact hnd.2
      · rw [if_neg (by simpa using hoc)] at hnd
        exact hnd
    obtain ⟨s', hfold, hbod2, hlen2, hral2, hrg2, hmono2, hpre2, hbr2⟩ :=
      ih acc1
        (fun kp' hkp' hoc' =>
          Nat.lt_of_lt_of_le (hlt kp' (by simp [hkp']) hoc') hlen1)
        (fun kp' hkp' hoc' hor' hrs' => by
          refine hnp kp' (by simp [hkp']) hoc' hor' ?_
          rw [← hcell1 kp' hkp' hoc']
          exact hrs')
        hndrest
        (by rw [hral1]; exact hnrlt)
    refine ⟨s', ?_, hbod2.trans hbod1, le_trans hlen1 hlen2, hral2.trans hral1,
      ?_, ?_, ?_, ?_⟩
    · show (deleteTopRowStep m index acc (k, p)).bind
        (fun a => List.foldlM (deleteTopRowStep m index) a rest) = some s'
      rw [hstep, Option.some_bind]
      exact hfold
    · intro rid hrid
      rw [hrg2 rid hrid, hrg1 rid hrid]
    · intro x hx
      exact hmono2 x (hmono1 x hx)
    · intro j hj hnone
      rw [hpre2 j (Nat.lt_of_lt_of_le hj hlen1)
        (fun kp' hkp' => hnone kp' (by simp [hkp'])),
        hpre1 j hj (hnone (k, p) (by simp))]
    · rintro kp' hkp' hoc'
      rcases List.mem_cons.mp hkp' with hhd | htl
      · -- the head item: its step-facts survive the rest of the fold
        subst hhd
        refine ⟨?_, ?_⟩
        · intro hor hrs
          obtain ⟨fid, hfge, hflt, hfval, hpval, hfmem⟩ := (hbr1 hoc').1 hor hrs
          refine ⟨fid, hfge, ?_, ?_, hmono2 fid hfmem⟩
          · rw [hpre2 fid hflt ?_]
            · exact hfval
            · intro kp2 hkp2
              rintro ⟨hoc2, hceq2⟩
              have := hlt kp2 (by simp [hkp2]) hoc2
              omega
          · rw [hpre2 p.cell (Nat.lt_of_lt_of_le (hlt (k, p) (by simp) hoc') hlen1) ?_]
            · exact hpval
            · intro kp2 hkp2
              rintro ⟨hoc2, hceq2⟩
              exact hdisj kp2 hkp2 hoc' hoc2 hceq2
        · intro hnA
          have hmain := (hbr1 hoc').2 hnA
          rw [hpre2 p.cell (Nat.lt_of_lt_of_le (hlt (k, p) (by simp) hoc') hlen1) ?_]
          · exact hmain
          · intro kp2 hkp2
            rintro ⟨hoc2, hceq2⟩
            exact hdisj kp2 hkp2 hoc' hoc2 hceq2
      · -- a later item: its facts come from the ih, relative to acc1;
        -- its cell is untouched by the head step, so the values line up
        have hcv := hcell1 kp' htl hoc'
        obtain ⟨hA2, hB2⟩ := hbr2 kp' htl hoc'
        refine ⟨?_, ?_⟩
        · intro hor hrs
          obtain ⟨fid, hfge, hfval, hpval, hfmem⟩ :=
            hA2 hor (by rw [hcv]; exact hrs)
          exact ⟨fid, le_trans hlen1 hfge, by rw [hfval, hcv],
            by rw [hpval, hcv], hfmem⟩
        · intro hnA
          rw [hB2 (by rw [hcv]; exact hnA), hcv]

/- Decidable side conditions for the `deleteTopRow` characterization: both
   the previous and the target matrix row exist, the target row's id is a
   valid row-arena index, the anchor cells of the previous row's
   column-boundary positions are pairwise distinct and in bounds, and every
   rowspan>1 anchor has a target-row position recorded in the target row. -/
def delTopCheck (s : TableState) (index : Int) : Bool :=
  match getIdx (serializeM s).1 (index - 1), getIdx (serializeM s).1 index with
  | some prevRow, some nextRow =>
      decide (nextRow.cells < (serializeM s).2.length) &&
      decide (((prevRow.cellsPosition.enum.filter
          (fun kp => kp.2.offsetColumn == 0)).map (·.2.cell)).Nodup) &&
      prevRow.cellsPosition.enum.all (fun kp =>
        if kp.2.offsetColumn = 0 then
          decide (kp.2.cell < s.cellArena.length) &&
          (if kp.2.offsetRow = 0 ∧ (cellOf s.cellArena kp.2.cell).rowspan > 1 then
            match nextRow.cellsPosition[kp.1]? with
            | some np => np.row == nextRow.cells
            | none => false
          else true)
        else true)
  | _, _ => false

/-- C8 (amended): `deleteTopRow` acts on the row *above* the rectangle's
top (`index - 1`).  For each of that row's positions at a column boundary
(`offsetColumn = 0`): if the position is the span's anchor row
(`offsetRow = 0`) and the cell has `rowspan > 1`, the cell is left
unchanged and a *fresh* replacement cell with `rowspan` one less than the
original and the *same* `colspan` (not a 1x1 cell) is inserted into the
target row's grid row via the `afterCell` neighbor link; otherwise the
cell's `rowspan` is decremented in place.  The previous row's id is then
removed from the body list, and the selection is shifted one row up - the
end position only when start and end reference different cells. -/
theorem deleteTopRow_characterization (s : TableState) (params : TableEditRange)
    (index : Int) (prevRow nextRow : TableRowPosition)
    (hidx : params.startPosition.rowIndex = some index)
    (hne : ¬index = 0)
    (hprev : getIdx (serializeM s).1 (index - 1) = some prevRow)
    (hnext : getIdx (serializeM s).1 index = some nextRow)
    (hchk : delTopCheck s index = true) :
    ∃ s', deleteTopRow s params = some (s', shiftRows params index (-1)) ∧
      s'.bodies = jsRemoveAt s.bodies (jsIndexOf s.bodies prevRow.cells) ∧
      s.cellArena.length ≤ s'.cellArena.length ∧
      (∀ rid, rid ≠ nextRow.cells → rowGet s'.rowArena rid = rowGet s.rowArena rid) ∧
      (∀ x, x ∈ rowGet s.rowArena nextRow.cells → x ∈ rowGet s'.rowArena nextRow.cells) ∧
      (∀ j, j < s.cellArena.length →
        (∀ kp ∈ prevRow.cellsPosition.enum, ¬(kp.2.offsetColumn = 0 ∧ kp.2.cell = j)) →
        cellOf s'.cellArena j = cellOf s.cellArena j) ∧
      (∀ kp ∈ prevRow.cellsPosition.enum, kp.2.offsetColumn = 0 →
        (kp.2.offsetRow = 0 → (cellOf s.cellArena kp.2.cell).rowspan > 1 →
          ∃ fid, s.cellArena.length ≤ fid ∧
            cellOf s'.cellArena fid = ⟨(cellOf s.cellArena kp.2.cell).rowspan - 1,
              (cellOf s.cellArena kp.2.cell).colspan⟩ ∧
            cellOf s'.cellArena kp.2.cell = cellOf s.cellArena kp.2.cell ∧
            fid ∈ rowGet s'.rowArena nextRow.cells) ∧
        (¬(kp.2.offsetRow = 0 ∧ (cellOf s.cellArena kp.2.cell).rowspan > 1) →
          cellOf s'.cellArena kp.2.cell =
            { cellOf s.cellArena kp.2.cell with
                rowspan := (cellOf s.cellArena kp.2.cell).rowspan - 1 })) ∧
      (shiftRows params index (-1)).startPosition.rowIndex = some (index - 1) ∧
      (params.startPosition.cell = params.endPosition.cell →
        (shiftRows params index (-1)).endPosition = params.endPosition) ∧
      (params.startPosition.cell ≠ params.endPosition.cell →
        (shiftRows params index (-1)).endPosition.rowIndex =
          some (params.endPosition.rowIndex.getD 0 - 1)) := by
  have hrow0 : ∀ rid, rowGet (postSerialize s).rowArena rid = rowGet s.rowArena rid :=
    (postSerialize_sameStore s).2.2
  unfold delTopCheck at hchk
  rw [hprev, hnext] at hchk
  simp only [Bool.and_eq_true, decide_eq_true_eq, List.all_eq_true] at hchk
  obtain ⟨⟨hnrlt, hnd⟩, hitems⟩ := hchk
  have hitems' : ∀ kp ∈ prevRow.cellsPosition.enum, kp.2.offsetColumn = 0 →
      kp.2.cell < s.cellArena.length ∧
      (kp.2.offsetRow = 0 → (cellOf s.cellArena kp.2.cell).rowspan > 1 →
        ∃ np, nextRow.cellsPosition[kp.1]? = some np ∧ np.row = nextRow.cells) := by
    intro kp hkp hoc
    have h := hitems kp hkp
    rw [if_pos hoc] at h
    simp only [Bool.and_eq_true, decide_eq_true_eq] at h
    refine ⟨h.1, ?_⟩
    intro hor hrs
    have h2 := h.2
    rw [if_pos ⟨hor, hrs⟩] at h2
    revert h2
    cases hnp : nextRow.cellsPosition[kp.1]? with
    | none => intro hcon; exact absurd hcon (by simp)
    | some np => intro h2; exact ⟨np, rfl, by simpa using h2⟩
  obtain ⟨s1, hfold, hbod, hlen, hral, hrg, hmono, hpre, hbr⟩ :=
    deleteTopRowStep_fold (serializeM s).1 index nextRow hnext
      prevRow.cellsPosition.enum (postSerialize s)
      (fun kp hkp hoc => (hitems' kp hkp hoc).1)
      (fun kp hkp hoc hor hrs => (hitems' kp hkp hoc).2 hor hrs)
      hnd hnrlt
  refine ⟨{ s1 with bodies := jsRemoveAt s1.bodies (jsIndexOf s1.bodies prevRow.cells) },
    ?_, ?_, hlen, ?_, ?_, ?_, ?_, ?_, ?_, ?_⟩
  · simp only [deleteTopRow, hidx, Option.bind_eq_bind, Option.some_bind]
    rw [if_neg hne]
    simp only [hprev, Option.bind_eq_bind, Option.some_bind]
    have hfold2 : List.foldlM (deleteTopRowStep (serializeM s).1 index)
        { s with rowArena := (serializeM s).2 } prevRow.cellsPosition.enum = some s1 := hfold
    rw [hfold2]
    rfl
  · show jsRemoveAt s1.bodies (jsIndexOf s1.bodies prevRow.cells) = _
    rw [hbod]
    rfl
  · intro rid hrid
    show rowGet s1.rowArena rid = rowGet s.rowArena rid
    rw [hrg rid hrid, hrow0 rid]
  · intro x hx
    rw [← hrow0 nextRow.cells] at hx
    exact hmono x hx
  · intro j hj hnone
    exact hpre j hj hnone
  · exact hbr
  · unfold shiftRows
    split <;> rfl
  · intro he
    unfold shiftRows
    rw [if_pos he]
  · intro he
    unfold shiftRows
    rw [if_neg he]
    rfl

/- The projected matrix rows of `gBig` (explicit literals). -/
def prevRowBig : TableRowPosition :=
  ⟨0, [⟨none, none, 0, 0, some 0, some 0, 0, 0⟩, ⟨none, none, 0, 0, some 0, some 1, 1, 0⟩]⟩

def nextRowBig : TableRowPosition :=
  ⟨1, [⟨none, none, 1, 0, some 1, some 0, 0, 1⟩, ⟨none, none, 1, 0, some 1, some 1, 1, 1⟩]⟩

/-- Witness for C8's amended statement on `gBig` (one 2x2-spanning cell,
rectangle top at row 1): the anchor's replacement effects hold at the
concrete input. -/
theorem deleteTopRow_characterization_witness :
    ∃ s', deleteTopRow gBig paramsBig = some (s', shiftRows paramsBig 1 (-1)) ∧
      s'.bodies = jsRemoveAt gBig.bodies (jsIndexOf gBig.bodies prevRowBig.cells) ∧
      gBig.cellArena.length ≤ s'.cellArena.length ∧
      (∀ rid, rid ≠ nextRowBig.cells →
        rowGet s'.rowArena rid = rowGet gBig.rowArena rid) ∧
      (∀ x, x ∈ rowGet gBig.rowArena nextRowBig.cells →
        x ∈ rowGet s'.rowArena nextRowBig.cells) ∧
      (∀ j, j < gBig.cellArena.length →
        (∀ kp ∈ prevRowBig.cellsPosition.enum,
          ¬(kp.2.offsetColumn = 0 ∧ kp.2.cell = j)) →
        cellOf s'.cellArena j = cellOf gBig.cellArena j) ∧
      (∀ kp ∈ prevRowBig.cellsPosition.enum, kp.2.offsetColumn = 0 →
        (kp.2.offsetRow = 0 → (cellOf gBig.cellArena kp.2.cell).rowspan > 1 →
          ∃ fid, gBig.cellArena.length ≤ fid ∧
            cellOf s'.cellArena fid = ⟨(cellOf gBig.cellArena kp.2.cell).rowspan - 1,
              (cellOf gBig.cellArena kp.2.cell).colspan⟩ ∧
            cellOf s'.cellArena kp.2.cell = cellOf gBig.cellArena kp.2.cell ∧
            fid ∈ rowGet s'.rowArena nextRowBig.cells) ∧
        (¬(kp.2.offsetRow = 0 ∧ (cellOf gBig.cellArena kp.2.cell).rowspan > 1) →
          cellOf s'.cellArena kp.2.cell =
            { cellOf gBig.cellArena kp.2.cell with
                rowspan := (cellOf gBig.cellArena kp.2.cell).rowspan - 1 })) ∧
      (shiftRows paramsBig 1 (-1)).startPosition.rowIndex = some (1 - 1) ∧
      (paramsBig.startPosition.cell = paramsBig.endPosition.cell →
        (shiftRows paramsBig 1 (-1)).endPosition = paramsBig.endPosition) ∧
      (paramsBig.startPosition.cell ≠ paramsBig.endPosition.cell →
        (shiftRows paramsBig 1 (-1)).endPosition.rowIndex =
          some (paramsBig.endPosition.rowIndex.getD 0 - 1)) :=
  deleteTopRow_characterization gBig paramsBig 1 prevRowBig nextRowBig rfl
    (by decide) (by decide) (by decide) (by decide)

theorem jsRemoveAt_sublist {α : Type} (l : List α) (i : Int) :
    List.Sublist (jsRemoveAt l i) l := by
  unfold jsRemoveAt
  have h1 : List.Sublist (l.drop (jsNorm l.length i + 1)) (l.drop (jsNorm l.length i)) := by
    rw [← List.drop_drop]
    exact List.drop_sublist 1 _
  have h2 := List.Sublist.append_left h1 (l.take (jsNorm l.length i))
  have h3 := List.take_append_drop (jsNorm l.length i) l
  rw [h3] at h2
  exact h2

theorem jsIndexOf_split {α : Type} [DecidableEq α] {l : List α} {a : α} (ha : a ∈ l) :
    ∃ t1 t2, l = t1 ++ a :: t2 ∧ a ∉ t1 ∧ jsIndexOf l a = (t1.length : Int) ∧
      jsRemoveAt l (jsIndexOf l a) = t1 ++ t2 := by
  induction l with
  | nil => cases ha
  | cons x xs ih =>
    by_cases hx : x = a
    · subst hx
      have h0 : jsIndexOf (x :: xs) x = 0 := by
        unfold jsIndexOf
        rw [List.findIdx?_cons]
        simp
      refine ⟨[], xs, rfl, by simp, h0, ?_⟩
      rw [h0]
      unfold jsRemoveAt jsNorm
      simp
    · have ha' : a ∈ xs := by
        rcases List.mem_cons.mp ha with h | h
        · exact absurd h.symm hx
        · exact h
      obtain ⟨t1, t2, heq, hnm, hidx, hrem⟩ := ih ha'
      obtain ⟨n, hn⟩ : ∃ n, List.findIdx? (fun y => y == a) xs 0 = some n := by
        cases h : List.findIdx? (fun y => y == a) xs 0 with
        | none =>
          exfalso
          have := List.findIdx?_eq_none_iff.mp h a ha'
          simp at this
        | some n => exact ⟨n, rfl⟩
      have hstep : jsIndexOf (x :: xs) a = jsIndexOf xs a + 1 := by
        unfold jsIndexOf
        rw [List.findIdx?_cons, if_neg (by simpa using hx), List.findIdx?_succ, hn]
        simp
      refine ⟨x :: t1, t2, by rw [heq]; rfl, ?_, ?_, ?_⟩
      · intro hcon
        rcases List.mem_cons.mp hcon with h | h
        · exact hx h.symm
        · exact hnm h
      · rw [hstep, hidx]
        simp
      · rw [hstep, hidx]
        have hlt : t1.length < xs.length := by
          rw [heq]
          simp
        unfold jsRemoveAt jsNorm
        rw [if_neg (by omega)]
        have hnorm : min ((t1.length : Int) + 1).toNat (x :: xs).length = t1.length + 1 := by
          simp
          omega
        rw [hnorm]
        have hprev : jsRemoveAt xs (jsIndexOf xs a) = t1 ++ t2 := hrem
        rw [hidx] at hprev
        unfold jsRemoveAt jsNorm at hprev
        rw [if_neg (by omega)] at hprev
        have hnorm2 : min ((t1.length : Int)).toNat xs.length = t1.length := by
          simp
          omega
        rw [hnorm2] at hprev
        show x :: (xs.take t1.length ++ xs.drop (t1.length + 1)) = (x :: t1) ++ t2
        rw [hprev]
        rfl

theorem jsIndexOf_not_mem {α : Type} [DecidableEq α] {l : List α} {a : α}
    (h : a ∉ l) : jsIndexOf l a = -1 := by
  unfold jsIndexOf
  have : List.findIdx? (fun y => y == a) l = none := by
    rw [List.findIdx?_eq_none_iff]
    intro x hx
    simp only [beq_eq_false_iff_ne, ne_eq, beq_iff_eq]
    intro hcon
    exact h (hcon ▸ hx)
  rw [this]

theorem jsRemove_self_not_mem {α : Type} [DecidableEq α] {l : List α} {a : α}
    (hnd : l.Nodup) : a ∉ jsRemoveAt l (jsIndexOf l a) := by
  by_cases ha : a ∈ l
  · obtain ⟨t1, t2, heq, hnm, hidx, hrem⟩ := jsIndexOf_split ha
    rw [hrem]
    rw [heq, List.nodup_append] at hnd
    intro hcon
    rcases List.mem_append.mp hcon with h | h
    · exact hnm h
    · exact (List.nodup_cons.mp hnd.2.1).1 h
  · intro hcon
    exact ha ((jsRemoveAt_sublist l _).mem hcon)

theorem jsRemove_mem_of_ne {α : Type} [DecidableEq α] {l : List α} {a x : α}
    (ha : a ∈ l) (hx : x ∈ l) (hne : x ≠ a) :
    x ∈ jsRemoveAt l (jsIndexOf l a) := by
  obtain ⟨t1, t2, heq, hnm, hidx, hrem⟩ := jsIndexOf_split ha
  rw [hrem]
  rw [heq] at hx
  rcases List.mem_append.mp hx with h | h
  · exact List.mem_append.mpr (Or.inl h)
  · rcases List.mem_cons.mp h with h | h
    · exact absurd h hne
    · exact List.mem_append.mpr (Or.inr h)

theorem rowGet_out {rowArena : List (List Nat)} {i : Nat}
    (h : rowArena.length ≤ i) : rowGet rowArena i = [] := by
  unfold rowGet
  rw [List.getD_eq_getElem?_getD, List.getElem?_eq_none (by omega)]
  rfl

/- Effect of one removal step of `mergeCells`. -/
theorem mergeRemoveStep_spec (acc : TableState) (c : TableCellPosition)
    (hndbod : acc.bodies.Nodup) :
    (mergeRemoveStep acc c).cellArena = acc.cellArena ∧
    (∀ rid, List.Sublist (rowGet (mergeRemoveStep acc c).rowArena rid)
      (rowGet acc.rowArena rid)) ∧
    List.Sublist (mergeRemoveStep acc c).bodies acc.bodies ∧
    (∀ rid, rid ≠ c.row →
      rowGet (mergeRemoveStep acc c).rowArena rid = rowGet acc.rowArena rid) ∧
    (c.cell ∈ rowGet acc.rowArena c.row →
      rowGet (mergeRemoveStep acc c).rowArena c.row =
        jsRemoveAt (rowGet acc.rowArena c.row)
          (jsIndexOf (rowGet acc.rowArena c.row) c.cell)) ∧
    (∀ rid, rowGet (mergeRemoveStep acc c).rowArena rid = [] →
      rowGet acc.rowArena rid ≠ [] → rid ∉ (mergeRemoveStep acc c).bodies) ∧
    (mergeRemoveStep acc c).bodies.Nodup ∧
    (c.cell ∉ rowGet acc.rowArena c.row → mergeRemoveStep acc c = acc) := by
  by_cases hfound : jsIndexOf (rowGet acc.rowArena c.row) c.cell > -1
  · have hmem : c.cell ∈ rowGet acc.rowArena c.row := by
      by_contra hcon
      rw [jsIndexOf_not_mem hcon] at hfound
      omega
    have hlt : c.row < acc.rowArena.length := by
      by_contra hcon
      rw [rowGet_out (by omega)] at hmem
      cases hmem
    set L := rowGet acc.rowArena c.row with hLdef
    set L' := jsRemoveAt L (jsIndexOf L c.cell) with hL'def
    by_cases hemp : L'.length = 0
    · have heq : mergeRemoveStep acc c =
          { acc with rowArena := setRow acc.rowArena c.row L'
                     bodies := jsRemoveAt acc.bodies (jsIndexOf acc.bodies c.row) } := by
        unfold mergeRemoveStep
        rw [if_pos hfound, if_pos hemp]
      rw [heq]
      refine ⟨rfl, ?_, jsRemoveAt_sublist _ _, ?_, ?_, ?_,
        (jsRemoveAt_sublist _ _).nodup hndbod, fun hcon => absurd hmem hcon⟩
      · intro rid
        by_cases hr : rid = c.row
        · subst hr
          rw [rowGet_set_self hlt]
          exact jsRemoveAt_sublist _ _
        · rw [rowGet_set_ne hr]
      · intro rid hr
        exact rowGet_set_ne hr
      · intro _
        exact rowGet_set_self hlt
      · intro rid hempR hne
        by_cases hr : rid = c.row
        · subst hr
          exact jsRemove_self_not_mem hndbod
        · rw [rowGet_set_ne hr] at hempR
          exact absurd hempR hne
    · have heq : mergeRemoveStep acc c =
          { acc with rowArena := setRow acc.rowArena c.row L' } := by
        unfold mergeRemoveStep
        rw [if_pos hfound, if_neg hemp]
      rw [heq]
      refine ⟨rfl, ?_, List.Sublist.refl _, ?_, ?_, ?_, hndbod,
        fun hcon => absurd hmem hcon⟩
      · intro rid
        by_cases hr : rid = c.row
        · subst hr
          rw [rowGet_set_self hlt]
          exact jsRemoveAt_sublist _ _
        · rw [rowGet_set_ne hr]
      · intro rid hr
        exact rowGet_set_ne hr
      · intro _
        exact rowGet_set_self hlt
      · intro rid hempR hne
        by_cases hr : rid = c.row
        · subst hr
          rw [rowGet_set_self hlt] at hempR
          exact absurd (List.length_eq_zero.mpr hempR) hemp
        · rw [rowGet_set_ne hr] at hempR
          exact absurd hempR hne
  · have heq : mergeRemoveStep acc c = acc := by
      unfold mergeRemoveStep
      rw [if_neg hfound]
    rw [heq]
    refine ⟨rfl, fun rid => List.Sublist.refl _, List.Sublist.refl _,
      fun rid _ => rfl, ?_, fun rid hempR hne => absurd hempR hne, hndbod,
      fun hcon => rfl⟩
    intro hmem
    obtain ⟨t1, t2, heq2, hnm, hidx, hrem⟩ := jsIndexOf_split hmem
    rw [hidx] at hfound
    exfalso
    exact hfound (by omega)

/- Effect of the whole removal loop of `mergeCells` when the removed anchor
   cells are pairwise distinct, each stored in its own (duplicate-free)
   row, and the body list is duplicate-free. -/
theorem mergeRemoveFold :
    ∀ (items : List TableCellPosition) (acc : TableState),
    acc.bodies.Nodup →
    (∀ c ∈ items, c.cell ∈ rowGet acc.rowArena c.row) →
    (∀ c ∈ items, (rowGet acc.rowArena c.row).Nodup) →
    (items.map (·.cell)).Nodup →
    (items.foldl mergeRemoveStep acc).cellArena = acc.cellArena ∧
    (∀ rid, List.Sublist (rowGet (items.foldl mergeRemoveStep acc).rowArena rid)
      (rowGet acc.rowArena rid)) ∧
    List.Sublist (items.foldl mergeRemoveStep acc).bodies acc.bodies ∧
    (∀ rid, (∀ c ∈ items, c.row ≠ rid) →
      rowGet (items.foldl mergeRemoveStep acc).rowArena rid = rowGet acc.rowArena rid) ∧
    (∀ c ∈ items, c.cell ∉ rowGet (items.foldl mergeRemoveStep acc).rowArena c.row) ∧
    (∀ x rid, x ∈ rowGet acc.rowArena rid → (∀ c ∈ items, c.cell ≠ x) →
      x ∈ rowGet (items.foldl mergeRemoveStep acc).rowArena rid) ∧
    (∀ rid, rowGet (items.foldl mergeRemoveStep acc).rowArena rid = [] →
      rowGet acc.rowArena rid ≠ [] →
      rid ∉ (items.foldl mergeRemoveStep acc).bodies) := by
  intro items
  induction items with
  | nil =>
    intro acc _ _ _ _
    exact ⟨rfl, fun rid => List.Sublist.refl _, List.Sublist.refl _,
      fun rid _ => rfl, fun c hc => absurd hc (by simp),
      fun x rid hx _ => hx, fun rid h1 h2 => absurd h1 h2⟩
  | cons c rest ih =>
    intro acc hndbod hmem hndrows hndcells
    simp only [List.foldl_cons]
    obtain ⟨hca, hsub, hbodsub, hne, hrem, hempb, hbodnd, hid⟩ :=
      mergeRemoveStep_spec acc c hndbod
    have hcmem : c.cell ∈ rowGet acc.rowArena c.row := hmem c (by simp)
    have hcnd : (rowGet acc.rowArena c.row).Nodup := hndrows c (by simp)
    have hcne : ∀ c' ∈ rest, c'.cell ≠ c.cell := by
      intro c' hc' hcon
      simp only [List.map_cons, List.nodup_cons] at hndcells
      exact hndcells.1 (List.mem_map.mpr ⟨c', hc', hcon⟩)
    have hmem1 : ∀ c' ∈ rest, c'.cell ∈ rowGet (mergeRemoveStep acc c).rowArena c'.row := by
      intro c' hc'
      by_cases hr : c'.row = c.row
      · rw [hr, hrem hcmem]
        exact jsRemove_mem_of_ne hcmem (hr ▸ hmem c' (by simp [hc'])) (hcne c' hc')
      · rw [hne c'.row hr]
        exact hmem c' (by simp [hc'])
    obtain ⟨ica, isub, ibodsub, ine, irem, imem, iempb⟩ :=
      ih (mergeRemoveStep acc c) hbodnd hmem1
        (fun c' hc' => (hsub c'.row).nodup (hndrows c' (by simp [hc'])))
        (by simp only [List.map_cons, List.nodup_cons] at hndcells; exact hndcells.2)
    refine ⟨ica.trans hca, ?_, ibodsub.trans hbodsub, ?_, ?_, ?_, ?_⟩
    · intro rid
      exact (isub rid).trans (hsub rid)
    · intro rid hall
      rw [ine rid (fun c' hc' => hall c' (by simp [hc'])), hne rid (Ne.symm (hall c (by simp)))]
    · intro c' hc'
      rcases List.mem_cons.mp hc' with hh | ht
      · subst hh
        have h1 : c'.cell ∉ rowGet (mergeRemoveStep acc c').rowArena c'.row := by
          rw [hrem hcmem]
          exact jsRemove_self_not_mem hcnd
        intro hcon
        exact h1 ((isub c'.row).mem hcon)
      · exact irem c' ht
    · intro x rid hx hall
      refine imem x rid ?_ (fun c' hc' => hall c' (by simp [hc']))
      by_cases hr : rid = c.row
      · by_cases hc : c.cell ∈ rowGet acc.rowArena c.row
        · rw [hr, hrem hc]
          exact jsRemove_mem_of_ne hc (hr ▸ hx) (fun hcon => hall c (by simp) hcon.symm)
        · rw [hid hc]
          exact hx
      · rw [hne rid hr]
        exact hx
    · intro rid hfin hne0
      by_cases h1 : rowGet (mergeRemoveStep acc c).rowArena rid = []
      · intro hcon
        exact hempb rid h1 hne0 (ibodsub.mem hcon)
      · exact iempb rid hfin h1

/- Decidable side conditions for the `mergeCells` characterization: the
   surviving anchor's cell id is in bounds and stored in its row, the body
   list and each affected row are duplicate-free, and the anchors reference
   pairwise distinct cells. -/
def mergeChk (s0 : TableState) (params : TableEditRange) : Bool :=
  match mergeSelected s0 params with
  | some (newNode :: tail) =>
      decide (newNode.cell < s0.cellArena.length) &&
      decide (s0.bodies.Nodup) &&
      decide (((newNode :: tail).map (·.cell)).Nodup) &&
      decide (newNode.cell ∈ rowGet s0.rowArena newNode.row) &&
      tail.all (fun c => decide (c.cell ∈ rowGet s0.rowArena c.row) &&
        decide ((rowGet s0.rowArena c.row).Nodup))
  | _ => false

/-- C4: `mergeCells` makes the first anchor position inside the rectangle
the surviving cell, with `rowspan` set to the rectangle's height and
`colspan` to its width; every other anchor cell is removed from its row
(its content handle discarded, not concatenated into the survivor), the
survivor stays in its own row, rows the removals leave empty are dropped
from the grid store's body list, and the body list never grows. -/
theorem mergeCells_characterization (s0 : TableState) (params : TableEditRange)
    (newNode : TableCellPosition) (tail : List TableCellPosition)
    (hsel : mergeSelected s0 params = some (newNode :: tail))
    (hchk : mergeChk s0 params = true) :
    ∃ s2, mergeCellsCore s0 params = some (s2, newNode) ∧
      cellOf s2.cellArena newNode.cell =
        ⟨(params.endPosition.rowIndex.getD 0 -
            params.startPosition.rowIndex.getD 0 + 1).toNat,
          (params.endPosition.columnIndex.getD 0 -
            params.startPosition.columnIndex.getD 0 + 1).toNat⟩ ∧
      (∀ j, j ≠ newNode.cell → cellOf s2.cellArena j = cellOf s0.cellArena j) ∧
      newNode.cell ∈ rowGet s2.rowArena newNode.row ∧
      (∀ c ∈ tail, c.cell ∉ rowGet s2.rowArena c.row) ∧
      (∀ rid, (∀ c ∈ tail, c.row ≠ rid) →
        rowGet s2.rowArena rid = rowGet s0.rowArena rid) ∧
      List.Sublist s2.bodies s0.bodies ∧
      (∀ rid, rowGet s2.rowArena rid = [] → rowGet s0.rowArena rid ≠ [] →
        rid ∉ s2.bodies) ∧
      (∀ out, mergeCells s0 params = some out → SameStore s2 out.1) := by
  have hrow0 : ∀ rid, rowGet (postSerialize s0).rowArena rid = rowGet s0.rowArena rid :=
    (postSerialize_sameStore s0).2.2
  unfold mergeChk at hchk
  rw [hsel] at hchk
  simp only [Bool.and_eq_true, decide_eq_true_eq, List.all_eq_true] at hchk
  obtain ⟨⟨⟨⟨hlt, hndbod⟩, hndcells⟩, hsmem⟩, htail⟩ := hchk
  have htailmem : ∀ c ∈ tail, c.cell ∈ rowGet s0.rowArena c.row :=
    fun c hc => (htail c hc).1
  have htailnd : ∀ c ∈ tail, (rowGet s0.rowArena c.row).Nodup :=
    fun c hc => (htail c hc).2
  have hsne : ∀ c ∈ tail, c.cell ≠ newNode.cell := by
    intro c hc hcon
    simp only [List.map_cons, List.nodup_cons] at hndcells
    exact hndcells.1 (List.mem_map.mpr ⟨c, hc, hcon⟩)
  obtain ⟨hca, hsub, hbodsub, hne, hrem, hmemp, hempb⟩ :=
    mergeRemoveFold tail
      (modCell (postSerialize s0) newNode.cell fun c =>
        { c with
            rowspan := (params.endPosition.rowIndex.getD 0 -
              params.startPosition.rowIndex.getD 0 + 1).toNat
            colspan := (params.endPosition.columnIndex.getD 0 -
              params.startPosition.columnIndex.getD 0 + 1).toNat })
      hndbod
      (fun c hc => by
        show c.cell ∈ rowGet (postSerialize s0).rowArena c.row
        rw [hrow0]
        exact htailmem c hc)
      (fun c hc => by
        show (rowGet (postSerialize s0).rowArena c.row).Nodup
        rw [hrow0]
        exact htailnd c hc)
      (by simp only [List.map_cons, List.nodup_cons] at hndcells; exact hndcells.2)
  refine ⟨List.foldl mergeRemoveStep
      (modCell (postSerialize s0) newNode.cell fun c =>
        { c with
            rowspan := (params.endPosition.rowIndex.getD 0 -
              params.startPosition.rowIndex.getD 0 + 1).toNat
            colspan := (params.endPosition.columnIndex.getD 0 -
              params.startPosition.columnIndex.getD 0 + 1).toNat }) tail,
    ?_, ?_, ?_, ?_, ?_, ?_, ?_, ?_, ?_⟩
  · simp only [mergeCellsCore, hsel, Option.bind_eq_bind, Option.some_bind,
      List.head?_cons]
    rfl
  · rw [hca]
    show cellOf (s0.cellArena.set newNode.cell _) newNode.cell = _
    exact cellOf_set_self hlt
  · intro j hj
    rw [hca]
    show cellOf (s0.cellArena.set newNode.cell _) j = cellOf s0.cellArena j
    exact cellOf_set_ne hj
  · refine hmemp newNode.cell newNode.row ?_ hsne
    show newNode.cell ∈ rowGet (postSerialize s0).rowArena newNode.row
    rw [hrow0]
    exact hsmem
  · exact hrem
  · intro rid hall
    rw [hne rid hall]
    exact hrow0 rid
  · exact hbodsub
  · intro rid h1 h2
    refine hempb rid h1 ?_
    show rowGet (postSerialize s0).rowArena rid ≠ []
    rw [hrow0]
    exact h2
  · intro out hout
    simp only [mergeCells, mergeCellsCore, hsel, Option.bind_eq_bind,
      Option.some_bind, List.head?_cons] at hout
    revert hout
    cases hr : (selectCells (List.foldl mergeRemoveStep
        (modCell { s0 with rowArena := (serializeM s0).2 } newNode.cell fun c =>
          { c with
              rowspan := (params.endPosition.rowIndex.getD 0 -
                params.startPosition.rowIndex.getD 0 + 1).toNat
              colspan := (params.endPosition.columnIndex.getD 0 -
                params.startPosition.columnIndex.getD 0 + 1).toNat })
        (newNode :: tail).tail) newNode.cell newNode.cell).1 with
    | none =>
      intro hout
      simp at hout
    | some rng =>
      intro hout
      simp only [Option.some_bind, Option.some_inj] at hout
      have h1 : out.1 = (selectCells (List.foldl mergeRemoveStep
          (modCell { s0 with rowArena := (serializeM s0).2 } newNode.cell fun c =>
            { c with
                rowspan := (params.endPosition.rowIndex.getD 0 -
                  params.startPosition.rowIndex.getD 0 + 1).toNat
                colspan := (params.endPosition.columnIndex.getD 0 -
                  params.startPosition.columnIndex.getD 0 + 1).toNat })
          (newNode :: tail).tail) newNode.cell newNode.cell).2 := by
        rw [← hout]
      rw [h1]
      exact postSerialize_sameStore _

/- The anchor positions `mergeCells` collects on `gQuad` with the full-grid
   selection: the surviving first anchor and the remaining three. -/
def mergeNodeQuad : TableCellPosition := ⟨none, some 1, 0, 0, some 0, some 0, 0, 0⟩

def mergeTailQuad : List TableCellPosition :=
  [⟨some 0, none, 0, 1, some 0, some 1, 0, 0⟩,
   ⟨none, some 3, 1, 2, some 1, some 0, 0, 0⟩,
   ⟨some 2, none, 1, 3, some 1, some 1, 0, 0⟩]

/-- Witness for C4 on the 2x2 grid of four 1x1 cells with the full-grid
selection: all side conditions hold and the characterization applies. -/
theorem mergeCells_characterization_witness :
    ∃ s2, mergeCellsCore gQuad paramsQuad = some (s2, mergeNodeQuad) ∧
      cellOf s2.cellArena mergeNodeQuad.cell =
        ⟨(paramsQuad.endPosition.rowIndex.getD 0 -
            paramsQuad.startPosition.rowIndex.getD 0 + 1).toNat,
          (paramsQuad.endPosition.columnIndex.getD 0 -
            paramsQuad.startPosition.columnIndex.getD 0 + 1).toNat⟩ ∧
      (∀ j, j ≠ mergeNodeQuad.cell → cellOf s2.cellArena j = cellOf gQuad.cellArena j) ∧
      mergeNodeQuad.cell ∈ rowGet s2.rowArena mergeNodeQuad.row ∧
      (∀ c ∈ mergeTailQuad, c.cell ∉ rowGet s2.rowArena c.row) ∧
      (∀ rid, (∀ c ∈ mergeTailQuad, c.row ≠ rid) →
        rowGet s2.rowArena rid = rowGet gQuad.rowArena rid) ∧
      List.Sublist s2.bodies gQuad.bodies ∧
      (∀ rid, rowGet s2.rowArena rid = [] → rowGet gQuad.rowArena rid ≠ [] →
        rid ∉ s2.bodies) ∧
      (∀ out, mergeCells gQuad paramsQuad = some out → SameStore s2 out.1) :=
  mergeCells_characterization gQuad paramsQuad mergeNodeQuad mergeTailQuad
    (by decide) (by decide)
